import Mathlib

/-!
Verification development for the RocketAMF native extension
(`src/ext/serializer.c`, `src/ext/deserializer.c`).

Bytes are modelled as `Nat` values below 256, byte streams as `List Nat`,
C `int`/`long` values as `Int` with explicit wrap-arounds where the code
relies on two's-complement behaviour.  IEEE-754 doubles are carried as their
eight raw big-endian wire bytes: the codec only moves them between the wire
and the host value, so no floating-point arithmetic needs to be modelled.
-/

namespace RocketAMF

/-! ## Small bitwise helper lemmas -/

theorem and127_eq_mod (n : Nat) : n &&& 127 = n % 128 :=
  Nat.and_pow_two_sub_one_eq_mod n 7

theorem and255_eq_mod (n : Nat) : n &&& 255 = n % 256 :=
  Nat.and_pow_two_sub_one_eq_mod n 8

theorem or128_and128 (x : Nat) (h : x < 128) : (x ||| 128) &&& 128 = 128 := by
  revert x h; decide

theorem or128_and127 (x : Nat) (h : x < 128) : (x ||| 128) &&& 127 = x := by
  revert x h; decide

theorem and128_eq_zero (x : Nat) (h : x < 128) : x &&& 128 = 0 := by
  revert x h; decide

/-- Joining disjoint bit ranges: `a <<< k ||| b` is plain addition when `b`
fits in the low `k` bits. -/
theorem shiftLeft_lor_eq_add (a b k : Nat) (h : b < 2 ^ k) :
    (a <<< k) ||| b = a * 2 ^ k + b := by
  apply Nat.eq_of_testBit_eq
  intro i
  rw [Nat.testBit_lor, Nat.testBit_shiftLeft, mul_comm a (2 ^ k),
    Nat.testBit_mul_pow_two_add a h i]
  by_cases hik : i < k
  · have : ¬ (i ≥ k) := by omega
    simp [this, hik]
  · have hb : b.testBit i = false :=
      Nat.testBit_eq_false_of_lt (lt_of_lt_of_le h (Nat.pow_le_pow_right (by omega) (by omega)))
    have : i ≥ k := by omega
    simp [this, hik, hb]

/-- Bit 28 of a value below `2^29` is set exactly when the value
is at least `2^28`. -/
theorem and_bit28 (r : Nat) (h : r < 2 ^ 29) :
    r &&& 0x10000000 = if 2 ^ 28 ≤ r then 0x10000000 else 0 := by
  have h1 : r &&& 2 ^ 28 = (r.testBit 28).toNat * 2 ^ 28 := Nat.and_two_pow r 28
  have h2 : r.testBit 28 = decide (r / 2 ^ 28 % 2 = 1) := Nat.testBit_to_div_mod
  have h3 : r / 2 ^ 28 % 2 = if 2 ^ 28 ≤ r then 1 else 0 := by
    split <;> omega
  rw [h2, h3] at h1
  have h4 : (0x10000000 : Nat) = 2 ^ 28 := by norm_num
  rw [h4, h1]
  split <;> simp

/-! ## The AMF3 U29/I29 variable-length integer codec -/

/-- The while-loop of `des_read_int` (deserializer.c:126-132): while the
current byte has the continuation bit set and fewer than three continuation
bytes have been consumed, fold the low seven bits into the accumulator and
read the next byte.  The structural counter `rem` is the number of loop
iterations still allowed, `3 - byte_cnt`, so the guard `byte_cnt < 3` is
the pattern `rem + 1`.  Returns `(result, byte_cnt, byte, pos)` as left by
the loop; `none` models the `DES_BOUNDS_CHECK` failure. -/
def des_read_int_loop (stream : List Nat) :
    Nat → Nat → Nat → Nat → Nat → Option (Nat × Nat × Nat × Nat)
  | 0, result, byteCnt, byte, pos => some (result, byteCnt, byte, pos)
  | rem + 1, result, byteCnt, byte, pos =>
    if byte &&& 0x80 ≠ 0 then
      match stream[pos]? with
      | none => none
      | some b =>
        des_read_int_loop stream rem ((result <<< 7) ||| (byte &&& 0x7f)) (byteCnt + 1) b (pos + 1)
    else
      some (result, byteCnt, byte, pos)

/-- AMF3 style integer decode, `des_read_int` (deserializer.c:121-147).
Reads one to four bytes from `stream` starting at `pos`; the result is the
signed 29-bit value together with the new position.  `none` models the
`DES_BOUNDS_CHECK` range error (`UnexpectedEnd`). -/
def des_read_int (stream : List Nat) (pos : Nat) : Option (Int × Nat) :=
  match stream[pos]? with
  | none => none
  | some b0 =>
    match des_read_int_loop stream 3 0 0 b0 (pos + 1) with
    | none => none
    | some (result, byteCnt, byte, pos1) =>
      let r : Nat :=
        if byteCnt < 3 then (result <<< 7) ||| (byte &&& 0x7f)
        else (result <<< 8) ||| (byte &&& 0xff)
      let v : Int := if r &&& 0x10000000 ≠ 0 then (r : Int) - 0x20000000 else (r : Int)
      some (v, pos1)

/-- AMF3 U29 encode, `ser_write_int` (serializer.c:100-128).
`num &= 0x1fffffff` keeps the low 29 bits of the 32-bit two's-complement
argument, i.e. `num` modulo `2^29`; the subsequent width selection follows
the source literally.  The final `else` branch models the
`rb_raise(rb_eRangeError, "int %d out of range")` call. -/
def ser_write_int (num : Int) : Option (List Nat) :=
  let n : Nat := (num % 0x20000000).toNat
  if n < 0x80 then
    some [n]
  else if n < 0x4000 then
    some [((n >>> 7) &&& 0x7f) ||| 0x80, n &&& 0x7f]
  else if n < 0x200000 then
    some [((n >>> 14) &&& 0x7f) ||| 0x80, ((n >>> 7) &&& 0x7f) ||| 0x80, n &&& 0x7f]
  else if n < 0x40000000 then
    some [((n >>> 22) &&& 0x7f) ||| 0x80, ((n >>> 15) &&& 0x7f) ||| 0x80,
      ((n >>> 8) &&& 0x7f) ||| 0x80, n &&& 0xff]
  else
    none

/-- The four U29 widths of §4.2 of the spec, selected by the unsigned view
of the number. -/
def u29_width (m : Nat) : Nat :=
  if m < 2 ^ 7 then 1 else if m < 2 ^ 14 then 2 else if m < 2 ^ 21 then 3 else 4

/-! Unfolding equations for one pass of the decode loop. -/

theorem des_read_int_loop_step (stream : List Nat) (rem result byteCnt byte pos b : Nat)
    (hb : byte &&& 0x80 ≠ 0) (hget : stream[pos]? = some b) :
    des_read_int_loop stream (rem + 1) result byteCnt byte pos =
      des_read_int_loop stream rem ((result <<< 7) ||| (byte &&& 0x7f)) (byteCnt + 1) b (pos + 1) := by
  rw [des_read_int_loop]
  simp [hb, hget]

theorem des_read_int_loop_exit (stream : List Nat) (rem result byteCnt byte pos : Nat)
    (h : byte &&& 0x80 = 0) :
    des_read_int_loop stream (rem + 1) result byteCnt byte pos =
      some (result, byteCnt, byte, pos) := by
  rw [des_read_int_loop]
  simp [h]

theorem des_read_int_eq (stream : List Nat) (pos : Nat) (b0 result byteCnt byte pos1 : Nat)
    (hget : stream[pos]? = some b0)
    (hloop : des_read_int_loop stream 3 0 0 b0 (pos + 1) = some (result, byteCnt, byte, pos1)) :
    des_read_int stream pos =
      some ((if (if byteCnt < 3 then (result <<< 7) ||| (byte &&& 0x7f)
                else (result <<< 8) ||| (byte &&& 0xff)) &&& 0x10000000 ≠ 0 then
               ((if byteCnt < 3 then (result <<< 7) ||| (byte &&& 0x7f)
                 else (result <<< 8) ||| (byte &&& 0xff) : Nat) : Int) - 0x20000000
             else ((if byteCnt < 3 then (result <<< 7) ||| (byte &&& 0x7f)
                    else (result <<< 8) ||| (byte &&& 0xff) : Nat) : Int)), pos1) := by
  simp only [des_read_int, hget, hloop]

theorem des_read_enc1 (m : Nat) (h : m < 0x80) :
    des_read_int [m] 0 = some ((m : Int), 1) := by
  have hloop : des_read_int_loop [m] 3 0 0 m 1 = some (0, 0, m, 1) :=
    des_read_int_loop_exit _ 2 _ _ _ _ (and128_eq_zero m h)
  rw [des_read_int_eq [m] 0 m 0 0 m 1 rfl hloop]
  have hr : (0 <<< 7) ||| (m &&& 0x7f) = m := by
    rw [Nat.zero_shiftLeft, Nat.zero_or, and127_eq_mod, Nat.mod_eq_of_lt h]
  have h28 : m &&& 0x10000000 = 0 := by
    rw [and_bit28 m (by omega), if_neg (by omega : ¬ 2 ^ 28 ≤ m)]
  simp only [if_pos (by omega : (0 : Nat) < 3), hr, h28]
  simp

theorem des_read_enc2 (m : Nat) (h1 : 0x80 ≤ m) (h2 : m < 0x4000) :
    des_read_int [((m >>> 7) &&& 0x7f) ||| 0x80, m &&& 0x7f] 0 = some ((m : Int), 2) := by
  have hy : (m >>> 7) &&& 0x7f < 128 := by rw [and127_eq_mod]; omega
  have hz : m &&& 0x7f < 128 := by rw [and127_eq_mod]; omega
  have hc1 : (((m >>> 7) &&& 0x7f) ||| 0x80) &&& 0x80 ≠ 0 := by
    rw [or128_and128 _ hy]; omega
  have hc2 : (m &&& 0x7f) &&& 0x80 = 0 := and128_eq_zero _ hz
  have hloop : des_read_int_loop [((m >>> 7) &&& 0x7f) ||| 0x80, m &&& 0x7f] 3 0 0
      (((m >>> 7) &&& 0x7f) ||| 0x80) 1 =
      some ((0 <<< 7) ||| ((((m >>> 7) &&& 0x7f) ||| 0x80) &&& 0x7f), 1, m &&& 0x7f, 2) := by
    rw [des_read_int_loop_step _ 2 _ _ _ _ (m &&& 0x7f) hc1 (by rfl)]
    exact des_read_int_loop_exit _ 1 _ _ _ _ hc2
  rw [des_read_int_eq _ 0 _ _ _ _ _ (by rfl) hloop]
  have hacc : (0 <<< 7) ||| ((((m >>> 7) &&& 0x7f) ||| 0x80) &&& 0x7f) = (m >>> 7) &&& 0x7f := by
    rw [Nat.zero_shiftLeft, Nat.zero_or, or128_and127 _ hy]
  have hb1 : (m &&& 0x7f) &&& 0x7f = m &&& 0x7f := by
    rw [and127_eq_mod, and127_eq_mod]; omega
  have hr : (((m >>> 7) &&& 0x7f) <<< 7) ||| (m &&& 0x7f) = m := by
    rw [shiftLeft_lor_eq_add ((m >>> 7) &&& 0x7f) (m &&& 0x7f) 7 (by omega)]
    rw [and127_eq_mod, and127_eq_mod, Nat.shiftRight_eq_div_pow]
    have e7 : (2 : Nat) ^ 7 = 128 := by norm_num
    rw [e7]
    have : m / 128 % 128 = m / 128 := Nat.mod_eq_of_lt (by omega)
    rw [this]; omega
  have h28 : m &&& 0x10000000 = 0 := by
    rw [and_bit28 m (by omega), if_neg (by omega : ¬ 2 ^ 28 ≤ m)]
  simp only [if_pos (by omega : (1 : Nat) < 3), hacc, hb1, hr, h28]
  simp

theorem des_read_enc3 (m : Nat) (h1 : 0x4000 ≤ m) (h2 : m < 0x200000) :
    des_read_int [((m >>> 14) &&& 0x7f) ||| 0x80, ((m >>> 7) &&& 0x7f) ||| 0x80, m &&& 0x7f] 0 =
      some ((m : Int), 3) := by
  have hy1 : (m >>> 14) &&& 0x7f < 128 := by rw [and127_eq_mod]; omega
  have hy2 : (m >>> 7) &&& 0x7f < 128 := by rw [and127_eq_mod]; omega
  have hz : m &&& 0x7f < 128 := by rw [and127_eq_mod]; omega
  have hc1 : (((m >>> 14) &&& 0x7f) ||| 0x80) &&& 0x80 ≠ 0 := by
    rw [or128_and128 _ hy1]; omega
  have hc2 : (((m >>> 7) &&& 0x7f) ||| 0x80) &&& 0x80 ≠ 0 := by
    rw [or128_and128 _ hy2]; omega
  have hc3 : (m &&& 0x7f) &&& 0x80 = 0 := and128_eq_zero _ hz
  have hloop : des_read_int_loop
      [((m >>> 14) &&& 0x7f) ||| 0x80, ((m >>> 7) &&& 0x7f) ||| 0x80, m &&& 0x7f] 3 0 0
      (((m >>> 14) &&& 0x7f) ||| 0x80) 1 =
      some (((0 <<< 7) ||| ((((m >>> 14) &&& 0x7f) ||| 0x80) &&& 0x7f)) <<< 7 |||
          ((((m >>> 7) &&& 0x7f) ||| 0x80) &&& 0x7f), 2, m &&& 0x7f, 3) := by
    rw [des_read_int_loop_step _ 2 _ _ _ _ (((m >>> 7) &&& 0x7f) ||| 0x80) hc1 (by rfl)]
    rw [des_read_int_loop_step _ 1 _ _ _ _ (m &&& 0x7f) hc2 (by rfl)]
    exact des_read_int_loop_exit _ 0 _ _ _ _ hc3
  rw [des_read_int_eq _ 0 _ _ _ _ _ (by rfl) hloop]
  have hacc : ((0 <<< 7) ||| ((((m >>> 14) &&& 0x7f) ||| 0x80) &&& 0x7f)) <<< 7 |||
      ((((m >>> 7) &&& 0x7f) ||| 0x80) &&& 0x7f) =
      (((m >>> 14) &&& 0x7f) <<< 7) ||| ((m >>> 7) &&& 0x7f) := by
    rw [Nat.zero_shiftLeft, Nat.zero_or, or128_and127 _ hy1, or128_and127 _ hy2]
  have hb1 : (m &&& 0x7f) &&& 0x7f = m &&& 0x7f := by
    rw [and127_eq_mod, and127_eq_mod]; omega
  have hr : (((((m >>> 14) &&& 0x7f) <<< 7) ||| ((m >>> 7) &&& 0x7f)) <<< 7) |||
      (m &&& 0x7f) = m := by
    rw [shiftLeft_lor_eq_add ((m >>> 14) &&& 0x7f) ((m >>> 7) &&& 0x7f) 7 (by omega)]
    rw [shiftLeft_lor_eq_add _ (m &&& 0x7f) 7 (by omega)]
    rw [and127_eq_mod, and127_eq_mod, and127_eq_mod, Nat.shiftRight_eq_div_pow,
      Nat.shiftRight_eq_div_pow]
    have e7 : (2 : Nat) ^ 7 = 128 := by norm_num
    have e14 : (2 : Nat) ^ 14 = 16384 := by norm_num
    rw [e7, e14]
    have : m / 16384 % 128 = m / 16384 := Nat.mod_eq_of_lt (by omega)
    rw [this]; omega
  have h28 : m &&& 0x10000000 = 0 := by
    rw [and_bit28 m (by omega), if_neg (by omega : ¬ 2 ^ 28 ≤ m)]
  simp only [if_pos (by omega : (2 : Nat) < 3), hacc, hb1, hr, h28]
  simp

theorem des_read_enc4 (m : Nat) (h1 : 0x200000 ≤ m) (h2 : m < 2 ^ 29) :
    des_read_int [((m >>> 22) &&& 0x7f) ||| 0x80, ((m >>> 15) &&& 0x7f) ||| 0x80,
        ((m >>> 8) &&& 0x7f) ||| 0x80, m &&& 0xff] 0 =
      some ((if 2 ^ 28 ≤ m then (m : Int) - 2 ^ 29 else (m : Int)), 4) := by
  have hy1 : (m >>> 22) &&& 0x7f < 128 := by rw [and127_eq_mod]; omega
  have hy2 : (m >>> 15) &&& 0x7f < 128 := by rw [and127_eq_mod]; omega
  have hy3 : (m >>> 8) &&& 0x7f < 128 := by rw [and127_eq_mod]; omega
  have hc1 : (((m >>> 22) &&& 0x7f) ||| 0x80) &&& 0x80 ≠ 0 := by
    rw [or128_and128 _ hy1]; omega
  have hc2 : (((m >>> 15) &&& 0x7f) ||| 0x80) &&& 0x80 ≠ 0 := by
    rw [or128_and128 _ hy2]; omega
  have hc3 : (((m >>> 8) &&& 0x7f) ||| 0x80) &&& 0x80 ≠ 0 := by
    rw [or128_and128 _ hy3]; omega
  have hloop : des_read_int_loop
      [((m >>> 22) &&& 0x7f) ||| 0x80, ((m >>> 15) &&& 0x7f) ||| 0x80,
        ((m >>> 8) &&& 0x7f) ||| 0x80, m &&& 0xff] 3 0 0
      (((m >>> 22) &&& 0x7f) ||| 0x80) 1 =
      some ((((0 <<< 7) ||| ((((m >>> 22) &&& 0x7f) ||| 0x80) &&& 0x7f)) <<< 7 |||
          ((((m >>> 15) &&& 0x7f) ||| 0x80) &&& 0x7f)) <<< 7 |||
          ((((m >>> 8) &&& 0x7f) ||| 0x80) &&& 0x7f), 3, m &&& 0xff, 4) := by
    rw [des_read_int_loop_step _ 2 _ _ _ _ (((m >>> 15) &&& 0x7f) ||| 0x80) hc1 (by rfl)]
    rw [des_read_int_loop_step _ 1 _ _ _ _ (((m >>> 8) &&& 0x7f) ||| 0x80) hc2 (by rfl)]
    rw [des_read_int_loop_step _ 0 _ _ _ _ (m &&& 0xff) hc3 (by rfl)]
    rfl
  rw [des_read_int_eq _ 0 _ _ _ _ _ (by rfl) hloop]
  have hacc : (((0 <<< 7) ||| ((((m >>> 22) &&& 0x7f) ||| 0x80) &&& 0x7f)) <<< 7 |||
      ((((m >>> 15) &&& 0x7f) ||| 0x80) &&& 0x7f)) <<< 7 |||
      ((((m >>> 8) &&& 0x7f) ||| 0x80) &&& 0x7f) =
      ((((m >>> 22) &&& 0x7f) <<< 7 ||| ((m >>> 15) &&& 0x7f)) <<< 7) |||
        ((m >>> 8) &&& 0x7f) := by
    rw [Nat.zero_shiftLeft, Nat.zero_or, or128_and127 _ hy1, or128_and127 _ hy2,
      or128_and127 _ hy3]
  have hb1 : (m &&& 0xff) &&& 0xff = m &&& 0xff := by
    rw [and255_eq_mod, and255_eq_mod]; omega
  have hr : ((((((m >>> 22) &&& 0x7f) <<< 7 ||| ((m >>> 15) &&& 0x7f)) <<< 7) |||
      ((m >>> 8) &&& 0x7f)) <<< 8) ||| (m &&& 0xff) = m := by
    rw [shiftLeft_lor_eq_add ((m >>> 22) &&& 0x7f) ((m >>> 15) &&& 0x7f) 7 (by omega)]
    rw [shiftLeft_lor_eq_add _ ((m >>> 8) &&& 0x7f) 7 (by omega)]
    rw [shiftLeft_lor_eq_add _ (m &&& 0xff) 8 (by rw [and255_eq_mod]; omega)]
    rw [and127_eq_mod, and127_eq_mod, and127_eq_mod, and255_eq_mod,
      Nat.shiftRight_eq_div_pow, Nat.shiftRight_eq_div_pow, Nat.shiftRight_eq_div_pow]
    have e7 : (2 : Nat) ^ 7 = 128 := by norm_num
    have e8 : (2 : Nat) ^ 8 = 256 := by norm_num
    have e15 : (2 : Nat) ^ 15 = 32768 := by norm_num
    have e22 : (2 : Nat) ^ 22 = 4194304 := by norm_num
    rw [e7, e8, e15, e22]
    have : m / 4194304 % 128 = m / 4194304 := Nat.mod_eq_of_lt (by omega)
    rw [this]; omega
  have h28 := and_bit28 m h2
  simp only [if_neg (by omega : ¬ (3 : Nat) < 3), hacc, hb1, hr, h28]
  by_cases hs : 2 ^ 28 ≤ m
  · simp only [if_pos hs]
    norm_num
  · simp only [if_neg hs]
    norm_num

/-- C1: for every integer `n` in `[-2^28, 2^28 - 1]`, decoding the AMF3 U29/I29
encoding of `n` (`ser_write_int` followed by `des_read_int`) yields `n` again,
and the encoded form is the shortest of the four widths consistent with the
width table: 1 byte for unsigned-view values `< 2^7`, 2 bytes for `< 2^14`,
3 bytes for `< 2^21`, 4 bytes for `< 2^29`. -/
theorem C1_u29_int_round_trip (n : Int) (h1 : -(2 ^ 28) ≤ n) (h2 : n ≤ 2 ^ 28 - 1) :
    ∃ bytes, ser_write_int n = some bytes ∧
      des_read_int bytes 0 = some (n, bytes.length) ∧
      bytes.length = u29_width (n % 2 ^ 29).toNat := by
  have he : (2 : Int) ^ 29 = 0x20000000 := by norm_num
  rw [he]
  set m : Nat := (n % 0x20000000).toNat with hmdef
  have hm0 : 0 ≤ n % 0x20000000 := Int.emod_nonneg n (by norm_num)
  have hmval : (m : Int) = n % 0x20000000 := Int.toNat_of_nonneg hm0
  have hcase : (0 ≤ n ∧ (m : Int) = n) ∨ (n < 0 ∧ (m : Int) = n + 0x20000000) := by omega
  have hm29 : m < 2 ^ 29 := by omega
  by_cases w1 : m < 0x80
  · refine ⟨[m], ?_, ?_, ?_⟩
    · simp only [ser_write_int]
      rw [← hmdef, if_pos w1]
    · have hmn : (m : Int) = n := by omega
      rw [des_read_enc1 m w1, hmn]
      simp
    · simp only [List.length_cons, List.length_nil, u29_width]
      rw [if_pos (by omega : m < 2 ^ 7)]
  · by_cases w2 : m < 0x4000
    · refine ⟨[((m >>> 7) &&& 0x7f) ||| 0x80, m &&& 0x7f], ?_, ?_, ?_⟩
      · simp only [ser_write_int]
        rw [← hmdef, if_neg w1, if_pos w2]
      · have hmn : (m : Int) = n := by omega
        rw [des_read_enc2 m (by omega) w2, hmn]
        simp
      · simp only [List.length_cons, List.length_nil, u29_width]
        rw [if_neg (by omega : ¬ m < 2 ^ 7), if_pos (by omega : m < 2 ^ 14)]
    · by_cases w3 : m < 0x200000
      · refine ⟨[((m >>> 14) &&& 0x7f) ||| 0x80, ((m >>> 7) &&& 0x7f) ||| 0x80, m &&& 0x7f],
          ?_, ?_, ?_⟩
        · simp only [ser_write_int]
          rw [← hmdef, if_neg w1, if_neg w2, if_pos w3]
        · have hmn : (m : Int) = n := by omega
          rw [des_read_enc3 m (by omega) w3, hmn]
          simp
        · simp only [List.length_cons, List.length_nil, u29_width]
          rw [if_neg (by omega : ¬ m < 2 ^ 7), if_neg (by omega : ¬ m < 2 ^ 14),
            if_pos (by omega : m < 2 ^ 21)]
      · refine ⟨[((m >>> 22) &&& 0x7f) ||| 0x80, ((m >>> 15) &&& 0x7f) ||| 0x80,
          ((m >>> 8) &&& 0x7f) ||| 0x80, m &&& 0xff], ?_, ?_, ?_⟩
        · simp only [ser_write_int]
          rw [← hmdef, if_neg w1, if_neg w2, if_neg w3, if_pos (by omega : m < 0x40000000)]
        · have hv : (if 2 ^ 28 ≤ m then (m : Int) - 2 ^ 29 else (m : Int)) = n := by
            split <;> omega
          rw [des_read_enc4 m (by omega) hm29, hv]
          simp
        · simp only [List.length_cons, List.length_nil, u29_width]
          rw [if_neg (by omega : ¬ m < 2 ^ 7), if_neg (by omega : ¬ m < 2 ^ 14),
            if_neg (by omega : ¬ m < 2 ^ 21)]

/-- Witness for C1 at the concrete input `n = -1` (which encodes in 4 bytes). -/
theorem C1_u29_int_round_trip_witness :
    (-(2 ^ 28) ≤ (-1 : Int)) ∧ ((-1 : Int) ≤ 2 ^ 28 - 1) ∧
      ∃ bytes, ser_write_int (-1) = some bytes ∧
        des_read_int bytes 0 = some (-1, bytes.length) ∧
        bytes.length = u29_width ((-1 : Int) % 2 ^ 29).toNat :=
  ⟨by norm_num, by norm_num, C1_u29_int_round_trip (-1) (by norm_num) (by norm_num)⟩

/-- C6 counterexample: `ser_write_int` is given `2^29`, whose unsigned view
exceeds `2^29 - 1` before masking, yet it does not fail: the mask
`num &= 0x1fffffff` is applied before the range test, so it successfully
writes the single byte `0x00` instead of raising `IntegerOutOfRange`. -/
theorem C6_out_of_range_never_fails_counterexample :
    ser_write_int 0x20000000 = some [0] := by decide

/-- C6 (amended): because `ser_write_int` masks its argument to 29 bits before
the width tests, the `IntegerOutOfRange` branch is unreachable: for every
argument, in range or not, the encoder succeeds and writes one of the four
U29 widths (that of the masked 29-bit value). -/
theorem C6_write_int_total (num : Int) :
    ∃ bytes, ser_write_int num = some bytes ∧
      bytes.length = u29_width (num % 2 ^ 29).toNat := by
  have he : (2 : Int) ^ 29 = 0x20000000 := by norm_num
  rw [he]
  set m : Nat := (num % 0x20000000).toNat with hmdef
  have hm0 : 0 ≤ num % 0x20000000 := Int.emod_nonneg num (by norm_num)
  have hmval : (m : Int) = num % 0x20000000 := Int.toNat_of_nonneg hm0
  have hm29 : m < 2 ^ 29 := by omega
  by_cases w1 : m < 0x80
  · refine ⟨[m], ?_, ?_⟩
    · simp only [ser_write_int]
      rw [← hmdef, if_pos w1]
    · simp only [List.length_cons, List.length_nil, u29_width]
      rw [if_pos (by omega : m < 2 ^ 7)]
  · by_cases w2 : m < 0x4000
    · refine ⟨[((m >>> 7) &&& 0x7f) ||| 0x80, m &&& 0x7f], ?_, ?_⟩
      · simp only [ser_write_int]
        rw [← hmdef, if_neg w1, if_pos w2]
      · simp only [List.length_cons, List.length_nil, u29_width]
        rw [if_neg (by omega : ¬ m < 2 ^ 7), if_pos (by omega : m < 2 ^ 14)]
    · by_cases w3 : m < 0x200000
      · refine ⟨[((m >>> 14) &&& 0x7f) ||| 0x80, ((m >>> 7) &&& 0x7f) ||| 0x80, m &&& 0x7f],
          ?_, ?_⟩
        · simp only [ser_write_int]
          rw [← hmdef, if_neg w1, if_neg w2, if_pos w3]
        · simp only [List.length_cons, List.length_nil, u29_width]
          rw [if_neg (by omega : ¬ m < 2 ^ 7), if_neg (by omega : ¬ m < 2 ^ 14),
            if_pos (by omega : m < 2 ^ 21)]
      · refine ⟨[((m >>> 22) &&& 0x7f) ||| 0x80, ((m >>> 15) &&& 0x7f) ||| 0x80,
          ((m >>> 8) &&& 0x7f) ||| 0x80, m &&& 0xff], ?_, ?_⟩
        · simp only [ser_write_int]
          rw [← hmdef, if_neg w1, if_neg w2, if_neg w3, if_pos (by omega : m < 0x40000000)]
        · simp only [List.length_cons, List.length_nil, u29_width]
          rw [if_neg (by omega : ¬ m < 2 ^ 7), if_neg (by omega : ¬ m < 2 ^ 14),
            if_neg (by omega : ¬ m < 2 ^ 21)]

/-! ## Case translation (the translate_case option)

Strings are byte lists; `tolower` on an ASCII upper-case letter adds 32, and
C `toupper` maps a lower-case letter to its upper-case form and leaves every
other byte unchanged. -/

/-- C `toupper` restricted to ASCII, as used by `camelcase_str`. -/
def ctoupper (c : Nat) : Nat := if 97 ≤ c ∧ c ≤ 122 then c - 32 else c

/-- Helper converting camelCase to snake_case, `snakecase_str`
(deserializer.c:23-41): an upper-case letter (ASCII 65-90) is replaced by an
underscore followed by its lower-case form; every other byte is copied. -/
def snakecase_str : List Nat → List Nat
  | [] => []
  | c :: rest =>
    if 65 ≤ c ∧ c ≤ 90 then 95 :: (c + 32) :: snakecase_str rest
    else c :: snakecase_str rest

/-- The character loop of `camelcase_str` (serializer.c:58-68) with its `up`
flag: an underscore sets the flag and emits nothing; a byte seen with the
flag set is emitted through `toupper`; any other byte is copied.  (The C
buffer `char camel_str[sizeof(snake_str)]` is an 8-byte stack array — a
latent overflow — but the abstract character transformation is as below.) -/
def camelcase_loop : List Nat → Bool → List Nat
  | [], _ => []
  | c :: rest, up =>
    if c = 95 then camelcase_loop rest true
    else if up then ctoupper c :: camelcase_loop rest false
    else c :: camelcase_loop rest false

/-- Helper converting snake_case to camelCase, `camelcase_str`
(serializer.c:52-72); the `up` flag starts clear. -/
def camelcase_str (s : List Nat) : List Nat := camelcase_loop s false

/-- The claim's decoding rule, stated from the spec's words: insert `_`
before each upper-case letter and lower-case it. -/
def spec_snakecase (s : List Nat) : List Nat :=
  s.flatMap fun c => if 65 ≤ c ∧ c ≤ 90 then [95, c + 32] else [c]

mutual

/-- The encoding rule as amended: every underscore is deleted, and the byte
that follows a run of underscores is sent through `toupper` (so a letter is
upper-cased and any other byte merely loses its underscores); a trailing
run of underscores is dropped. -/
def spec_camelcase : List Nat → List Nat
  | [] => []
  | 95 :: rest => spec_camel_after rest
  | c :: rest => c :: spec_camelcase rest

/-- State of `spec_camelcase` after an underscore has been seen. -/
def spec_camel_after : List Nat → List Nat
  | [] => []
  | 95 :: rest => spec_camel_after rest
  | c :: rest => ctoupper c :: spec_camelcase rest

end

/-- Decidable check for the claim's notion of a run `_x` with `x` a letter. -/
def has_uscore_letter_run : List Nat → Bool
  | 95 :: c :: rest =>
    (decide ((65 ≤ c ∧ c ≤ 90) ∨ (97 ≤ c ∧ c ≤ 122))) || has_uscore_letter_run (c :: rest)
  | _ :: rest => has_uscore_letter_run rest
  | [] => false

theorem snakecase_str_eq_spec (s : List Nat) : snakecase_str s = spec_snakecase s := by
  induction s with
  | nil => rfl
  | cons c rest ih =>
    by_cases hc : 65 ≤ c ∧ c ≤ 90
    · simp [snakecase_str, spec_snakecase, hc, List.flatMap_cons] at ih ⊢
      exact ih
    · simp [snakecase_str, spec_snakecase, hc, List.flatMap_cons] at ih ⊢
      exact ih

theorem camelcase_loop_eq_spec (s : List Nat) :
    camelcase_loop s false = spec_camelcase s ∧ camelcase_loop s true = spec_camel_after s := by
  induction s with
  | nil => exact ⟨rfl, rfl⟩
  | cons c rest ih =>
    by_cases hc : c = 95
    · subst hc
      constructor
      · rw [camelcase_loop, if_pos rfl, spec_camelcase]
        exact ih.2
      · rw [camelcase_loop, if_pos rfl, spec_camel_after]
        exact ih.2
    · constructor
      · rw [camelcase_loop, if_neg hc, if_neg (by simp)]
        rw [show spec_camelcase (c :: rest) = c :: spec_camelcase rest from by
          rw [spec_camelcase.eq_def]
          cases rest <;> simp [hc]]
        exact congrArg _ ih.1
      · rw [camelcase_loop, if_neg hc, if_pos rfl]
        rw [show spec_camel_after (c :: rest) = ctoupper c :: spec_camelcase rest from by
          rw [spec_camel_after.eq_def]
          cases rest <;> simp [hc]]
        exact congrArg _ ih.1

/-- C8 counterexample: the key `"a_"` (bytes `[97, 95]`) contains no run
`_x` with `x` a letter, yet `camelcase_str` does not pass it through
unchanged: the trailing underscore is dropped. -/
theorem C8_translate_case_counterexample :
    has_uscore_letter_run [97, 95] = false ∧
      camelcase_str [97, 95] = [97] ∧ camelcase_str [97, 95] ≠ [97, 95] := by
  refine ⟨rfl, rfl, ?_⟩
  decide

/-- C8 (amended): with translate_case enabled, decoding converts each wire
key to snake_case by inserting an underscore before each upper-case letter
and lower-casing it; encoding deletes every underscore and sends the byte
following a run of underscores through `toupper` (so `_x` with `x` a letter
becomes `X`, while an underscore before a non-letter or at the end of the
key is simply dropped); keys containing no upper-case letter (decoding) or
no underscore (encoding) pass through unchanged. -/
theorem C8_translate_case_mapping (key : List Nat) :
    snakecase_str key = spec_snakecase key ∧
      camelcase_str key = spec_camelcase key ∧
      ((∀ c ∈ key, ¬(65 ≤ c ∧ c ≤ 90)) → snakecase_str key = key) ∧
      (95 ∉ key → camelcase_str key = key) := by
  refine ⟨snakecase_str_eq_spec key, (camelcase_loop_eq_spec key).1, ?_, ?_⟩
  · intro hnc
    induction key with
    | nil => rfl
    | cons c rest ih =>
      rw [snakecase_str, if_neg (hnc c (by simp))]
      exact congrArg _ (ih fun c hc => hnc c (by simp [hc]))
  · intro hnu
    show camelcase_loop key false = key
    induction key with
    | nil => rfl
    | cons c rest ih =>
      rw [camelcase_loop, if_neg (by intro h; exact hnu (by simp [h])), if_neg (by simp)]
      exact congrArg _ (ih fun h => hnu (by simp [h]))

/-! ## Wire type markers

Modelled from the spec: the numeric marker values live in `constants.h`,
which is not among the sources under review; §4.4 and §4.5 of the spec fix
them, and `AMF3_EMPTY_STRING` is the inline header of a zero-length string,
`0 <<< 1 ||| 1 = 0x01`. -/

def AMF0_NUMBER_MARKER : Nat := 0x00
def AMF0_BOOLEAN_MARKER : Nat := 0x01
def AMF0_STRING_MARKER : Nat := 0x02
def AMF0_OBJECT_MARKER : Nat := 0x03
def AMF0_NULL_MARKER : Nat := 0x05
def AMF0_UNDEFINED_MARKER : Nat := 0x06
def AMF0_REFERENCE_MARKER : Nat := 0x07
def AMF0_HASH_MARKER : Nat := 0x08
def AMF0_OBJECT_END_MARKER : Nat := 0x09
def AMF0_STRICT_ARRAY_MARKER : Nat := 0x0A
def AMF0_DATE_MARKER : Nat := 0x0B
def AMF0_LONG_STRING_MARKER : Nat := 0x0C
def AMF0_UNSUPPORTED_MARKER : Nat := 0x0D
def AMF0_XML_MARKER : Nat := 0x0F
def AMF0_TYPED_OBJECT_MARKER : Nat := 0x10
def AMF0_AMF3_MARKER : Nat := 0x11

def AMF3_UNDEFINED_MARKER : Nat := 0x00
def AMF3_NULL_MARKER : Nat := 0x01
def AMF3_FALSE_MARKER : Nat := 0x02
def AMF3_TRUE_MARKER : Nat := 0x03
def AMF3_INTEGER_MARKER : Nat := 0x04
def AMF3_DOUBLE_MARKER : Nat := 0x05
def AMF3_STRING_MARKER : Nat := 0x06
def AMF3_XML_DOC_MARKER : Nat := 0x07
def AMF3_DATE_MARKER : Nat := 0x08
def AMF3_ARRAY_MARKER : Nat := 0x09
def AMF3_OBJECT_MARKER : Nat := 0x0A
def AMF3_XML_MARKER : Nat := 0x0B
def AMF3_BYTE_ARRAY_MARKER : Nat := 0x0C
def AMF3_DICT_MARKER : Nat := 0x11
def AMF3_EMPTY_STRING : Nat := 0x01
def AMF3_CLOSE_DYNAMIC_OBJECT : Nat := 0x01
def AMF3_CLOSE_DYNAMIC_ARRAY : Nat := 0x01

/-! ## Heap model of Ruby values for the deserializer

A Ruby `VALUE` is modelled as an index into a heap of objects, which makes
reference identity and in-place mutation (`rb_ary_push` on an array that is
already in the object cache) expressible.  Immediates (nil, booleans,
fixnums) are heap-allocated too; no settled claim relies on their identity.
Floats and times carry their eight raw big-endian wire bytes. -/

inductive RObj where
  | rnil
  | rbool (b : Bool)
  | rnum (bytes8 : List Nat)
  | rint (i : Int)
  | rstr (s : List Nat)
  | rsym (s : List Nat)
  | rarray (elems : List Nat)
  | rhash (pairs : List (Nat × Nat))
  | rtyped (className : List Nat) (props : List (Nat × Nat))
      (dynProps : Option (List (Nat × Nat)))
  | rtime (bytes8 : List Nat)
  | rbytes (s : List Nat)
  deriving DecidableEq

/-- AMF3 trait descriptors: the Ruby hash built at deserializer.c:507-511,
with the `members` array holding references to the member-name strings. -/
structure Traits where
  externalizable : Bool
  dynamic : Bool
  members : List Nat
  className : Nat
  deriving DecidableEq

/-- Wire-error kinds raised by the deserializer. -/
inductive DErr where
  | unexpectedEnd
  | badRef
  | cacheOob
  | badMarker
  | negLen
  | externalizable
  | typeErr
  | outOfFuel
  deriving DecidableEq

/-- State of one deserializer session: input position, the Ruby heap, and
the three reference tables (`obj_cache`, `str_cache`, `trait_cache`).
`symTouched` is a ghost record of every byte index `des_read_sym` accesses,
including the sentinel byte at `pos + len` that the C temporarily
overwrites with a NUL. -/
structure DState where
  pos : Nat
  heap : List RObj
  objCache : List Nat
  strCache : List Nat
  traitCache : List Traits
  symTouched : List Nat
  deriving DecidableEq

inductive DRes (α : Type) where
  | ok (a : α) (s : DState)
  | err (e : DErr) (s : DState)
  deriving DecidableEq

/-- The deserializer monad: state-threading with state-preserving errors
(an `rb_raise` aborts the session but the mutations made so far stand). -/
def DecM (α : Type) : Type := DState → DRes α

instance : Monad DecM where
  pure a := fun s => .ok a s
  bind m f := fun s =>
    match m s with
    | .ok a s1 => f a s1
    | .err e s1 => .err e s1

def throwD {α : Type} (e : DErr) : DecM α := fun s => .err e s

def getD : DecM DState := fun s => .ok s s

def modifyD (f : DState → DState) : DecM Unit := fun s => .ok () (f s)

theorem DecM_bind_apply {α β : Type} (m : DecM α) (f : α → DecM β) (s : DState) :
    (m >>= f) s = match m s with
      | .ok a s1 => f a s1
      | .err e s1 => .err e s1 := rfl

theorem DecM_pure_apply {α : Type} (a : α) (s : DState) :
    (pure a : DecM α) s = .ok a s := rfl

/-! ### Primitive reads (the byte cursor)

`DES_BOUNDS_CHECK(des, i)` is `if(des->pos + i > des->size) rb_raise(...)`;
each primitive checks before touching the stream. -/

/-- des_read_byte (deserializer.c:71-75). -/
def mReadByte (stream : List Nat) : DecM Nat := fun s =>
  if s.pos + 1 > stream.length then .err .unexpectedEnd s
  else .ok (stream.getD s.pos 0) { s with pos := s.pos + 1 }

/-- des_read_uint16 (deserializer.c:77-82): big-endian. -/
def mReadUInt16 (stream : List Nat) : DecM Nat := fun s =>
  if s.pos + 2 > stream.length then .err .unexpectedEnd s
  else .ok ((stream.getD s.pos 0) <<< 8 ||| stream.getD (s.pos + 1) 0)
    { s with pos := s.pos + 2 }

/-- des_read_uint32 (deserializer.c:84-89): big-endian; the ORs are computed
at `int` width before widening to `long`, so a top byte of `0x80` or more
produces a negative value. -/
def mReadUInt32 (stream : List Nat) : DecM Int := fun s =>
  if s.pos + 4 > stream.length then .err .unexpectedEnd s
  else
    let n : Nat := (stream.getD s.pos 0) <<< 24 ||| (stream.getD (s.pos + 1) 0) <<< 16 |||
      (stream.getD (s.pos + 2) 0) <<< 8 ||| stream.getD (s.pos + 3) 0
    .ok (if n < 2 ^ 31 then (n : Int) else (n : Int) - 2 ^ 32) { s with pos := s.pos + 4 }

/-- des_read_double (deserializer.c:94-116): the eight wire bytes, carried
raw (the C reassembles them into a host double; no arithmetic happens). -/
def mReadDouble (stream : List Nat) : DecM (List Nat) := fun s =>
  if s.pos + 8 > stream.length then .err .unexpectedEnd s
  else .ok ((stream.drop s.pos).take 8) { s with pos := s.pos + 8 }

/-- des_read_string (deserializer.c:152-162).  The length argument is a
C `long`; `rb_str_new` raises on a negative length, after the bounds check
has been evaluated in signed arithmetic. -/
def mReadString (stream : List Nat) (len : Int) : DecM (List Nat) := fun s =>
  if (s.pos : Int) + len > (stream.length : Int) then .err .unexpectedEnd s
  else if len < 0 then .err .negLen s
  else .ok ((stream.drop s.pos).take len.toNat) { s with pos := s.pos + len.toNat }

/-- des_read_sym (deserializer.c:169-177).  After the bounds check the C
saves, NUL-overwrites and restores `stream[pos + len]` — the byte one past
the requested range — so that index is recorded as touched alongside
`pos .. pos + len - 1`. -/
def mReadSym (stream : List Nat) (len : Nat) : DecM (List Nat) := fun s =>
  if s.pos + len > stream.length then .err .unexpectedEnd s
  else .ok ((stream.drop s.pos).take len)
    { s with pos := s.pos + len,
             symTouched := s.symTouched ++ (List.range (len + 1)).map (s.pos + ·) }

/-- des_read_int lifted into the session monad (`none` is the bounds-check
range error). -/
def mReadInt (stream : List Nat) : DecM Int := fun s =>
  match des_read_int stream s.pos with
  | none => .err .unexpectedEnd s
  | some (v, pos1) => .ok v { s with pos := pos1 }

/-! ### Heap and reference-table operations -/

def allocObj (o : RObj) : DecM Nat := fun s =>
  .ok s.heap.length { s with heap := s.heap ++ [o] }

def getObj (r : Nat) : DecM RObj := fun s =>
  match s.heap[r]? with
  | some o => .ok o s
  | none => .err .typeErr s

def setObj (r : Nat) (o : RObj) : DecM Unit := fun s =>
  .ok () { s with heap := s.heap.set r o }

def pushObjCache (r : Nat) : DecM Unit :=
  modifyD fun s => { s with objCache := s.objCache ++ [r] }

def pushStrCache (r : Nat) : DecM Unit :=
  modifyD fun s => { s with strCache := s.strCache ++ [r] }

def pushTraitCache (t : Traits) : DecM Unit :=
  modifyD fun s => { s with traitCache := s.traitCache ++ [t] }

/-- Raw table access `RARRAY_PTR(table)[i]` with a signed index, reached
after the sole guard `i >= RARRAY_LEN(table)` has failed: an index outside
`[0, len)` — in particular any negative index — is an out-of-bounds memory
access, modelled as the distinguished outcome `cacheOob`. -/
def cacheNth {α : Type} (cache : List α) (i : Int) : DecM α := fun s =>
  if h : 0 ≤ i ∧ i.toNat < cache.length then .ok (cache.get ⟨i.toNat, h.2⟩) s
  else .err .cacheOob s

/-- RSTRING_LEN of a string value. -/
def strLen (r : Nat) : DecM Nat := do
  match ← getObj r with
  | .rstr s => pure s.length
  | _ => throwD .typeErr

/-- RSTRING_PTR of a string value, as its byte list. -/
def strBytes (r : Nat) : DecM (List Nat) := do
  match ← getObj r with
  | .rstr s => pure s
  | _ => throwD .typeErr

/-- C-string content: `strcmp`/`strdup` stop at the first NUL byte. -/
def cstr (s : List Nat) : List Nat := s.takeWhile (· ≠ 0)

def cstrEq (a b : List Nat) : Bool := decide (cstr a = cstr b)

/-- rb_ary_push on a heap array. -/
def arrayPush (r v : Nat) : DecM Unit := do
  match ← getObj r with
  | .rarray es => setObj r (.rarray (es ++ [v]))
  | _ => throwD .typeErr

/-- Ruby hash key equality, modelled as content equality for strings and
symbols and reference identity otherwise (Ruby `eql?` additionally compares
containers recursively; no settled claim relies on that). -/
def keyEq (heap : List RObj) (k1 k2 : Nat) : Bool :=
  if k1 = k2 then true
  else
    match heap[k1]?, heap[k2]? with
    | some (.rstr a), some (.rstr b) => decide (a = b)
    | some (.rsym a), some (.rsym b) => decide (a = b)
    | _, _ => false

/-- rb_hash_aset: replace the value of an existing equal key, else append. -/
def hashAset (r k v : Nat) : DecM Unit := fun s =>
  match s.heap[r]? with
  | some (.rhash pairs) =>
    let pairs2 :=
      if pairs.any (fun p => keyEq s.heap p.1 k) then
        pairs.map (fun p => if keyEq s.heap p.1 k then (p.1, v) else p)
      else pairs ++ [(k, v)]
    .ok () { s with heap := s.heap.set r (.rhash pairs2) }
  | _ => .err .typeErr s

/-- Decimal digits of `i`, the bytes of `rb_fix2str(INT2FIX(i), 10)`. -/
def decimalBytes (i : Nat) : List Nat := (Nat.toDigits 10 i).map Char.toNat

/-! ## The AMF3 deserializer

Each function takes the stream explicitly (the C keeps it in `des->stream`,
fixed for the session).  The recursive value decoder `des3_deserialize`
passes itself to the helpers as the callback `des3`, consuming one unit of
fuel per nested value and per iteration of the unbounded wire loops; the C
recursion terminates because every step consumes input, which the fuel
makes explicit.  The class mapper (spec §6.1, an external collaborator) is
modelled as: `get_ruby_obj` instantiates an empty record carrying the wire
class name, `populate_ruby_obj` bulk-assigns the decoded property hashes,
and the `translate_case` option is the session constant `tc`. -/

/-- des3_read_string (deserializer.c:442-453).  `header >>= 1` on the C
`int` is an arithmetic shift, floor division by two. -/
def des3_read_string (stream : List Nat) : DecM Nat := do
  let header ← mReadInt stream
  if header % 2 = 0 then
    let header := header / 2
    let st ← getD
    if header ≥ (st.strCache.length : Int) then throwD .badRef
    else cacheNth st.strCache header
  else
    let str ← mReadString stream (header / 2)
    let r ← allocObj (.rstr str)
    if str.length > 0 then pushStrCache r
    pure r

/-- des3_read_xml (deserializer.c:459-470): as des3_read_string, but against
the object cache. -/
def des3_read_xml (stream : List Nat) : DecM Nat := do
  let header ← mReadInt stream
  if header % 2 = 0 then
    let header := header / 2
    let st ← getD
    if header ≥ (st.objCache.length : Int) then throwD .badRef
    else cacheNth st.objCache header
  else
    let str ← mReadString stream (header / 2)
    let r ← allocObj (.rstr str)
    if str.length > 0 then pushObjCache r
    pure r

/-- des3_read_time (deserializer.c:595-609). -/
def des3_read_time (stream : List Nat) : DecM Nat := do
  let header ← mReadInt stream
  if header % 2 = 0 then
    let header := header / 2
    let st ← getD
    if header ≥ (st.objCache.length : Int) then throwD .badRef
    else cacheNth st.objCache header
  else
    let milli ← mReadDouble stream
    let time ← allocObj (.rtime milli)
    pushObjCache time
    pure time

/-- des3_read_byte_array (deserializer.c:611-630). -/
def des3_read_byte_array (stream : List Nat) : DecM Nat := do
  let header ← mReadInt stream
  if header % 2 = 0 then
    let header := header / 2
    let st ← getD
    if header ≥ (st.objCache.length : Int) then throwD .badRef
    else cacheNth st.objCache header
  else
    let bytes ← mReadString stream (header / 2)
    let ba ← allocObj (.rbytes bytes)
    pushObjCache ba
    pure ba

/-- The sealed-member-name loop of trait parsing (deserializer.c:504-505):
read `n` member-name strings in order. -/
def des3_read_members (stream : List Nat) : Nat → DecM (List Nat)
  | 0 => pure []
  | n + 1 => do
    let m ← des3_read_string stream
    let rest ← des3_read_members stream n
    pure (m :: rest)

/-- Trait parsing, deserializer.c:487-513: the block of des3_read_object
that interprets the header once the inline bit has been shifted away.
`(header & 2)` and `(header & 4)` are bits one and two of the two's
complement value, `header % 4 / 2` and `header % 8 / 4`. -/
def des3_parse_traits (stream : List Nat) (header : Int) : DecM Traits := do
  if header % 2 = 0 then
    let header := header / 2
    let st ← getD
    if header ≥ (st.traitCache.length : Int) then throwD .badRef
    else cacheNth st.traitCache header
  else
    let externalizable : Bool := decide (header % 4 / 2 = 1)
    let dynamic : Bool := decide (header % 8 / 4 = 1)
    let membersLen : Int := header / 8
    let className ← des3_read_string stream
    let members ← des3_read_members stream membersLen.toNat
    let traits : Traits :=
      { externalizable := externalizable, dynamic := dynamic,
        members := members, className := className }
    pushTraitCache traits
    pure traits

/-- The class name the ArrayCollection flattening looks for
(deserializer.c:516), as UTF-8 bytes. -/
def arrayCollectionName : List Nat :=
  "flex.messaging.io.ArrayCollection".toList.map Char.toNat

/-- The dynamic-properties loop of des3_read_object (deserializer.c:543-547),
accumulating into the fresh `dynamic_props` hash until an empty key. -/
def des3_dyn_loop (stream : List Nat) (tc : Bool) (des3 : DecM Nat) :
    Nat → Nat → DecM Unit
  | 0, _ => throwD .outOfFuel
  | fuel + 1, dynProps => do
    let keyStr ← des3_read_string stream
    let kb ← strBytes keyStr
    let kb := if tc then snakecase_str kb else kb
    if kb.length = 0 then pure ()
    else do
      let key ← allocObj (.rsym kb)
      let v ← des3
      hashAset dynProps key v
      des3_dyn_loop stream tc des3 fuel dynProps

/-- The sealed-member-values loop of des3_read_object (deserializer.c:535-538):
bind one decoded value to each member name (interned, case-translated when
the option is on) in the `props` hash. -/
def des3_members_loop (tc : Bool) (des3 : DecM Nat) (props : Nat) :
    List Nat → DecM Unit
  | [] => pure ()
  | mref :: rest => do
    let mb ← strBytes mref
    let key ← allocObj (.rsym (if tc then snakecase_str mb else mb))
    let v ← des3
    hashAset props key v
    des3_members_loop tc des3 props rest

/-- des3_read_object (deserializer.c:472-554). -/
def des3_read_object (stream : List Nat) (tc : Bool) (des3 : DecM Nat) (fuel : Nat) :
    DecM Nat := do
  let header ← mReadInt stream
  if header % 2 = 0 then
    let header := header / 2
    let st ← getD
    if header ≥ (st.objCache.length : Int) then throwD .badRef
    else cacheNth st.objCache header
  else
    let traits ← des3_parse_traits stream (header / 2)
    let nameBytes ← strBytes traits.className
    -- Optimization for deserializing ArrayCollection (deserializer.c:516-520);
    -- strcmp compares the class names as C strings
    if cstrEq nameBytes arrayCollectionName then do
      let arr ← des3          -- adds the wrapped value to the object cache itself
      pushObjCache arr        -- add again for the ArrayCollection source array
      pure arr
    else do
      let obj ← allocObj (.rtyped nameBytes [] none)   -- class mapper get_ruby_obj
      pushObjCache obj
      if traits.externalizable then
        -- obj.read_external is host code outside this model
        throwD .externalizable
      else do
        let props ← allocObj (.rhash [])
        des3_members_loop tc des3 props traits.members
        let dynProps ←
          if traits.dynamic then do
            let d ← allocObj (.rhash [])
            des3_dyn_loop stream tc des3 fuel d
            pure (some d)
          else pure none
        populate_typed obj props dynProps
        pure obj
where
  /-- class mapper populate_ruby_obj (spec §6.1): bulk-assign the decoded
  property hashes to the record. -/
  populate_typed (obj props : Nat) (dynProps : Option Nat) : DecM Unit := do
    let propPairs ←
      match ← getObj props with
      | .rhash ps => pure ps
      | _ => throwD .typeErr
    let dynPairs ←
      match dynProps with
      | none => pure none
      | some d =>
        match ← getObj d with
        | .rhash ps => pure (some ps)
        | _ => throwD .typeErr
    match ← getObj obj with
    | .rtyped name _ _ => setObj obj (.rtyped name propPairs dynPairs)
    | _ => throwD .typeErr

/-- The associative-keys loop of des3_read_array (deserializer.c:574-577),
entered with a non-empty key in hand. -/
def des3_assoc_loop (stream : List Nat) (des3 : DecM Nat) :
    Nat → Nat → Nat → DecM Unit
  | 0, _, _ => throwD .outOfFuel
  | fuel + 1, obj, key => do
    let v ← des3
    hashAset obj key v
    let key2 ← des3_read_string stream
    let kl ← strLen key2
    if kl ≠ 0 then des3_assoc_loop stream des3 fuel obj key2 else pure ()

/-- The dense part of a mixed (hash) AMF3 array (deserializer.c:578-580):
`header` entries keyed by the decimal form of their index. -/
def des3_hash_dense_loop (des3 : DecM Nat) (obj : Nat) : Nat → Nat → DecM Unit
  | _, 0 => pure ()
  | i, n + 1 => do
    let k ← allocObj (.rstr (decimalBytes i))   -- rb_fix2str(INT2FIX(i), 10)
    let v ← des3
    hashAset obj k v
    des3_hash_dense_loop des3 obj (i + 1) n

/-- The dense-elements loop of a plain AMF3 array (deserializer.c:587-589). -/
def des3_dense_loop (des3 : DecM Nat) (obj : Nat) : Nat → DecM Unit
  | 0 => pure ()
  | n + 1 => do
    let v ← des3
    arrayPush obj v
    des3_dense_loop des3 obj n

/-- des3_read_array (deserializer.c:556-593). -/
def des3_read_array (stream : List Nat) (des3 : DecM Nat) (fuel : Nat) : DecM Nat := do
  let header ← mReadInt stream
  if header % 2 = 0 then
    let header := header / 2
    let st ← getD
    if header ≥ (st.objCache.length : Int) then throwD .badRef
    else cacheNth st.objCache header
  else
    let header := header / 2
    -- the C checks `key == Qnil`, which cannot happen: des3_read_string
    -- always yields a string value
    let key ← des3_read_string stream
    let kl ← strLen key
    if kl ≠ 0 then do
      let obj ← allocObj (.rhash [])
      pushObjCache obj
      des3_assoc_loop stream des3 fuel obj key
      des3_hash_dense_loop des3 obj 0 header.toNat
      pure obj
    else do
      let obj ← allocObj (.rarray [])
      pushObjCache obj
      des3_dense_loop des3 obj header.toNat
      pure obj

/-- The entry loop of des3_read_dict (deserializer.c:650-654). -/
def des3_dict_loop (des3 : DecM Nat) (dict : Nat) : Nat → DecM Unit
  | 0 => pure ()
  | n + 1 => do
    let k ← des3
    let v ← des3
    hashAset dict k v
    des3_dict_loop des3 dict n

/-- des3_read_dict (deserializer.c:632-658). -/
def des3_read_dict (stream : List Nat) (des3 : DecM Nat) : DecM Nat := do
  let header ← mReadInt stream
  if header % 2 = 0 then
    let header := header / 2
    let st ← getD
    if header ≥ (st.objCache.length : Int) then throwD .badRef
    else cacheNth st.objCache header
  else
    let header := header / 2
    let dict ← allocObj (.rhash [])
    pushObjCache dict
    let _ ← mReadInt stream    -- weak-keys flag, read and discarded
    des3_dict_loop des3 dict header.toNat
    pure dict

/-- des3_deserialize (deserializer.c:665-725), the internal AMF3 value
decoder: reads the type marker itself and dispatches. -/
def des3_deserialize (stream : List Nat) (tc : Bool) : Nat → DecM Nat
  | 0 => throwD .outOfFuel
  | fuel + 1 => do
    let type ← mReadByte stream
    if type = AMF3_UNDEFINED_MARKER ∨ type = AMF3_NULL_MARKER then
      allocObj .rnil
    else if type = AMF3_FALSE_MARKER then
      allocObj (.rbool false)
    else if type = AMF3_TRUE_MARKER then
      allocObj (.rbool true)
    else if type = AMF3_INTEGER_MARKER then do
      let v ← mReadInt stream
      allocObj (.rint v)
    else if type = AMF3_DOUBLE_MARKER then do
      let d ← mReadDouble stream
      allocObj (.rnum d)
    else if type = AMF3_STRING_MARKER then
      des3_read_string stream
    else if type = AMF3_ARRAY_MARKER then
      des3_read_array stream (des3_deserialize stream tc fuel) fuel
    else if type = AMF3_OBJECT_MARKER then
      des3_read_object stream tc (des3_deserialize stream tc fuel) fuel
    else if type = AMF3_DATE_MARKER then
      des3_read_time stream
    else if type = AMF3_XML_DOC_MARKER ∨ type = AMF3_XML_MARKER then
      des3_read_xml stream
    else if type = AMF3_BYTE_ARRAY_MARKER then
      des3_read_byte_array stream
    else if type = AMF3_DICT_MARKER then
      des3_read_dict stream (des3_deserialize stream tc fuel)
    else
      throwD .badMarker

/-- A fresh session state at position `pos` over a shared heap. -/
def initState (pos : Nat) (heap : List RObj) (symTouched : List Nat) : DState :=
  { pos := pos, heap := heap, objCache := [], strCache := [], traitCache := [],
    symTouched := symTouched }

/-- Top-level AMF3 decode (des3_deserialize_rb with the depth-0 cache
initialisation of deserializer.c:669-673). -/
def deserialize3 (tc : Bool) (fuel : Nat) (stream : List Nat) : DRes Nat :=
  des3_deserialize stream tc fuel (initState 0 [] [])

/-! ## The AMF0 deserializer

The property readers take the key-reading function as a parameter, exactly
as `des0_read_props` takes `read_key`; `tc` is the class mapper's
`translate_case` option for the record being populated.  The C applies
`snakecase_str` (a string operation) to whatever VALUE `read_key`
produced, symbols included; the model transforms the key's bytes and, as
`snakecase_str` builds a new string, yields a string value. -/

/-- Key reader `des_read_sym` with the translate_case wrapping of
deserializer.c:274. -/
def des0_key_sym (stream : List Nat) (tc : Bool) (len : Nat) : DecM Nat := do
  let b ← mReadSym stream len
  if tc then allocObj (.rstr (snakecase_str b)) else allocObj (.rsym b)

/-- Key reader `des_read_string` with the translate_case wrapping of
deserializer.c:274. -/
def des0_key_str (stream : List Nat) (tc : Bool) (len : Nat) : DecM Nat := do
  let b ← mReadString stream (len : Int)
  if tc then allocObj (.rstr (snakecase_str b)) else allocObj (.rstr b)

/-- des0_read_props (deserializer.c:264-279): the AMF0 property-pair loop.
A zero key length ends the loop after reading (and discarding) one type
byte; otherwise the key, the value's type byte and the value follow. -/
def des0_read_props (stream : List Nat) (readKey : Nat → DecM Nat)
    (des0 : Nat → DecM Nat) : Nat → Nat → DecM Unit
  | 0, _ => throwD .outOfFuel
  | fuel + 1, hash => do
    let len ← mReadUInt16 stream
    if len = 0 then do
      let _ ← mReadByte stream    -- type byte (the object-end marker)
      pure ()
    else do
      let key ← readKey len
      let type ← mReadByte stream
      let v ← des0 type
      hashAset hash key v
      des0_read_props stream readKey des0 fuel hash

/-- des0_read_object (deserializer.c:281-289); plain objects never
translate case. -/
def des0_read_object (stream : List Nat) (des0 : Nat → DecM Nat) (fuel : Nat) :
    DecM Nat := do
  let obj ← allocObj (.rhash [])
  pushObjCache obj
  des0_read_props stream (des0_key_sym stream false) des0 fuel obj
  pure obj

/-- des0_read_typed_object (deserializer.c:291-310).  The class mapper's
get_ruby_obj instantiates an empty record for the wire class name and
populate_ruby_obj assigns the decoded property hash (spec §6.1). -/
def des0_read_typed_object (stream : List Nat) (tc : Bool) (des0 : Nat → DecM Nat)
    (fuel : Nat) : DecM Nat := do
  let len ← mReadUInt16 stream
  let className ← mReadString stream (len : Int)
  let obj ← allocObj (.rtyped className [] none)
  pushObjCache obj
  let props ← allocObj (.rhash [])
  des0_read_props stream (des0_key_sym stream tc) des0 fuel props
  let propPairs ←
    match ← getObj props with
    | .rhash ps => pure ps
    | _ => throwD .typeErr
  setObj obj (.rtyped className propPairs none)
  pure obj

/-- des0_read_hash (deserializer.c:312-331).  The stock class mapper has no
mapping for the name "Hash", so `get_ruby_obj` yields nil, the object is a
plain new hash and translate_case stays off (the nil branch of the C). -/
def des0_read_hash (stream : List Nat) (des0 : Nat → DecM Nat) (fuel : Nat) :
    DecM Nat := do
  let _ ← mReadUInt32 stream    -- hash size, read and ignored
  let obj ← allocObj (.rhash [])
  pushObjCache obj
  des0_read_props stream (des0_key_str stream false) des0 fuel obj
  pure obj

/-- The element loop of des0_read_array (deserializer.c:344-347): each
element is a type byte and a value, pushed onto the array. -/
def des0_array_loop (stream : List Nat) (des0 : Nat → DecM Nat) (ary : Nat) :
    Nat → DecM Unit
  | 0 => pure ()
  | n + 1 => do
    let type ← mReadByte stream
    let v ← des0 type
    arrayPush ary v
    des0_array_loop stream des0 ary n

/-- des0_read_array (deserializer.c:333-350).  The array is cached before
its elements are read; `MAX_ARRAY_PREALLOC` only caps the capacity hint of
`rb_ary_new2` and has no modelled effect. -/
def des0_read_array (stream : List Nat) (des0 : Nat → DecM Nat) : DecM Nat := do
  let len ← mReadUInt32 stream
  let ary ← allocObj (.rarray [])
  pushObjCache ary
  des0_array_loop stream des0 ary len.toNat
  pure ary

/-- des0_read_time (deserializer.c:352-358): the double plus an ignored
timezone; AMF0 dates are not cached. -/
def des0_read_time (stream : List Nat) : DecM Nat := do
  let milli ← mReadDouble stream
  let _ ← mReadUInt16 stream    -- timezone, unused
  allocObj (.rtime milli)

/-- des0_read_amf3 (deserializer.c:239-258): a fresh AMF3 deserializer is
created sharing the source and position; its depth-0 entry allocates fresh
AMF3 caches, and only the position (and, in the model, the shared heap and
the ghost record) survives back into the AMF0 session. -/
def des0_read_amf3 (stream : List Nat) (tc : Bool) (fuel : Nat) : DecM Nat := fun s =>
  match des3_deserialize stream tc fuel (initState s.pos s.heap s.symTouched) with
  | .ok r s3 => .ok r { s with pos := s3.pos, heap := s3.heap, symTouched := s3.symTouched }
  | .err e s3 => .err e { s with pos := s3.pos, heap := s3.heap, symTouched := s3.symTouched }

/-- des0_deserialize (deserializer.c:364-425), the internal AMF0 value
decoder: dispatch on the type marker passed by the caller. -/
def des0_deserialize (stream : List Nat) (tc : Bool) : Nat → Nat → DecM Nat
  | 0, _ => throwD .outOfFuel
  | fuel + 1, type => do
    if type = AMF0_STRING_MARKER then do
      let len ← mReadUInt16 stream
      let b ← mReadString stream (len : Int)
      allocObj (.rstr b)
    else if type = AMF0_AMF3_MARKER then
      des0_read_amf3 stream tc fuel
    else if type = AMF0_NUMBER_MARKER then do
      let d ← mReadDouble stream
      allocObj (.rnum d)
    else if type = AMF0_BOOLEAN_MARKER then do
      let b ← mReadByte stream
      allocObj (.rbool (b ≠ 0))
    else if type = AMF0_NULL_MARKER ∨ type = AMF0_UNDEFINED_MARKER ∨
        type = AMF0_UNSUPPORTED_MARKER then
      allocObj .rnil
    else if type = AMF0_OBJECT_MARKER then
      des0_read_object stream (des0_deserialize stream tc fuel) fuel
    else if type = AMF0_TYPED_OBJECT_MARKER then
      des0_read_typed_object stream tc (des0_deserialize stream tc fuel) fuel
    else if type = AMF0_HASH_MARKER then
      des0_read_hash stream (des0_deserialize stream tc fuel) fuel
    else if type = AMF0_STRICT_ARRAY_MARKER then
      des0_read_array stream (des0_deserialize stream tc fuel)
    else if type = AMF0_REFERENCE_MARKER then do
      let tmp ← mReadUInt16 stream
      let st ← getD
      if (tmp : Int) ≥ (st.objCache.length : Int) then throwD .badRef
      else cacheNth st.objCache (tmp : Int)
    else if type = AMF0_DATE_MARKER then
      des0_read_time stream
    else if type = AMF0_XML_MARKER ∨ type = AMF0_LONG_STRING_MARKER then do
      let len ← mReadUInt32 stream
      let b ← mReadString stream len
      allocObj (.rstr b)
    else
      throwD .badMarker

/-- Top-level AMF0 decode: des0_deserialize_rb (deserializer.c:434-440)
reads the first type byte and dispatches, with the depth-0 object-cache
initialisation of deserializer.c:368-370. -/
def deserialize0 (tc : Bool) (fuel : Nat) (stream : List Nat) : DRes Nat :=
  (do
    let type ← mReadByte stream
    des0_deserialize stream tc fuel type) (initState 0 [] [])

/-! ## The serializer

Host (Ruby) values are modelled as an immutable heap `List HObj` indexed
by references, mirroring the decoder's heap: the serializer only reads
host values, so the heap is a fixed parameter.  `rb_obj_id` is the heap
index, giving reference identity for the object cache.  IEEE doubles are
kept abstract: a host value carries the eight network-order bytes that
`ser_write_double` emits for it, exactly as the decoder carries wire
doubles raw in `RObj.rnum`.  References at or beyond the heap length
model the immediate `Qnil` (in particular `rb_hash_aref` of a missing
key). -/

/-- A Ruby value as seen by the serializer dispatch (`TYPE(obj)` and the
class checks).  `hother` is any value matching none of the dispatch
branches and not defining `encode_amf`. -/
inductive HObj where
  | hstr (bytes : List Nat)
  | hsym (bytes : List Nat)
  | hfix (n : Int) (dbl : List Nat)
  | hfloat (dbl : List Nat)
  | hnil
  | htrue
  | hfalse
  | harray (elems : List Nat)
  | hhash (pairs : List (Nat × Nat))
  | htime (dbl : List Nat)
  | hdate (dbl : List Nat)
  | hbig (dbl : List Nat)
  | hobject (className : Option (List Nat)) (props : List (Nat × Nat))
  | hstringio (content : List Nat)
  | hother
deriving DecidableEq

/-- Dereference a host value; indices past the heap are `Qnil`. -/
def hget (heap : List HObj) (r : Nat) : HObj := heap.getD r .hnil

inductive SErr where
  | rangeErr
  | argErr
  | externalizable
  | outOfFuel
deriving DecidableEq

/-- AMF_SERIALIZER (serializer.c:26-37): output stream, recursion depth,
and the three caches.  `str_cache` and `trait_cache` are `st_strtable`s
keyed by `strdup`ed C strings, so the model stores the `cstr` of each key
(in insertion order: `ser->str_index` always equals the table size);
`obj_cache` is an `st_numtable` keyed by `rb_obj_id`, a heap reference. -/
structure SerState where
  stream : List Nat
  depth : Int
  objCache : List Nat
  strCache : List (List Nat)
  traitCache : List (List Nat)
deriving DecidableEq

inductive SRes (α : Type) where
  | ok (a : α) (s : SerState)
  | err (e : SErr) (s : SerState)
deriving DecidableEq

def SerM (α : Type) : Type := SerState → SRes α

instance : Monad SerM where
  pure a := fun s => .ok a s
  bind m f := fun s =>
    match m s with
    | .ok a s1 => f a s1
    | .err e s1 => .err e s1

def throwS {α : Type} (e : SErr) : SerM α := fun s => .err e s

def getS : SerM SerState := fun s => .ok s s

def modifyS (f : SerState → SerState) : SerM Unit := fun s => .ok () (f s)

theorem SerM_bind_apply {α β : Type} (m : SerM α) (f : α → SerM β) (s : SerState) :
    (m >>= f) s = match m s with
      | .ok a s1 => f a s1
      | .err e s1 => .err e s1 := rfl

theorem SerM_pure_apply {α : Type} (a : α) (s : SerState) :
    (pure a : SerM α) s = .ok a s := rfl

/-- `st_lookup` on a table kept in insertion order: the value stored for a
key is its insertion index. -/
def stIndex {α : Type} (eq : α → α → Bool) : List α → α → Nat → Option Nat
  | [], _, _ => none
  | x :: xs, k, i => if eq x k then some i else stIndex eq xs k (i + 1)

def stLookup {α : Type} (eq : α → α → Bool) (table : List α) (k : α) : Option Nat :=
  stIndex eq table k 0

def natEq (a b : Nat) : Bool := decide (a = b)

def bytesEq (a b : List Nat) : Bool := decide (a = b)

/-- ser_write (serializer.c:82-93): append to the output stream.  The
amortised buffer doubling and the `MAX_STREAM_LENGTH` overall limit are
capacity management with no effect on the bytes produced and are not
modelled. -/
def ser_write (bytes : List Nat) : SerM Unit :=
  modifyS fun s => { s with stream := s.stream ++ bytes }

/-- ser_write_byte (serializer.c:95-98). -/
def ser_write_byte (b : Nat) : SerM Unit := ser_write [b % 256]

/-- ser_write_int (serializer.c:100-128) in the session monad, via the
pure `ser_write_int` above; the unreachable `rb_raise` branch is the
`rangeErr` outcome. -/
def mWriteInt (num : Int) : SerM Unit := fun s =>
  match ser_write_int num with
  | some bytes => .ok () { s with stream := s.stream ++ bytes }
  | none => .err .rangeErr s

/-- ser_write_uint16 (serializer.c:130-134). -/
def ser_write_uint16 (num : Int) : SerM Unit := fun s =>
  if num > 0xffff ∨ num < 0 then .err .rangeErr s
  else .ok () { s with stream :=
    s.stream ++ [(num.toNat >>> 8) &&& 0xff, num.toNat &&& 0xff] }

/-- ser_write_uint32 (serializer.c:136-140). -/
def ser_write_uint32 (num : Int) : SerM Unit := fun s =>
  if num > 0xffffffff ∨ num < 0 then .err .rangeErr s
  else .ok () { s with stream :=
    s.stream ++ [(num.toNat >>> 24) &&& 0xff, (num.toNat >>> 16) &&& 0xff,
      (num.toNat >>> 8) &&& 0xff, num.toNat &&& 0xff] }

/-- ser_write_double (serializer.c:142-156): emit the eight network-order
bytes carried on the host value. -/
def ser_write_double (dbl : List Nat) : SerM Unit := ser_write dbl

/-- Modelled from the spec: `MIN_INTEGER`/`MAX_INTEGER` (constants.h, not
in the sources) bound the representable AMF3 integer range
`[-2^28, 2^28 - 1]` (§4.2). -/
def MIN_INTEGER : Int := -0x10000000

def MAX_INTEGER : Int := 0x0FFFFFFF

/-- Modelled from the spec: `ClassMapper.props_for_serialization` (§6.1)
returns the value's serializable property hash, carried on the host value
in this model. -/
def props_for_serialization (heap : List HObj) (r : Nat) : List (Nat × Nat) :=
  match hget heap r with
  | .hhash pairs => pairs
  | .hobject _ props => props
  | _ => []

/-- Modelled from the spec: `ClassMapper.get_as_class_name` (§6.1) maps a
typed host object to its AS class name and anything else to nil. -/
def get_as_class_name (heap : List HObj) (r : Nat) : Option (List Nat) :=
  match hget heap r with
  | .hobject cn _ => cn
  | _ => none

/-- RSTRING_PTR bytes of a string or symbol value (used by camelcase_str,
which iterates the underlying C string). -/
def strValBytes : HObj → List Nat
  | .hstr b => b
  | .hsym b => b
  | _ => []

/-- Ruby hash key equality for the property hashes: content equality for
two strings or two symbols, reference identity otherwise. -/
def hKeyEq (heap : List HObj) (k1 k2 : Nat) : Bool :=
  if k1 = k2 then true
  else
    match hget heap k1, hget heap k2 with
    | .hstr a, .hstr b => decide (a = b)
    | .hsym a, .hsym b => decide (cstr a = cstr b)
    | _, _ => false

/-- rb_hash_aref on a property list: `none` is Qnil. -/
def hashAref (heap : List HObj) (pairs : List (Nat × Nat)) (k : Nat) : Option Nat :=
  match pairs.find? (fun p => hKeyEq heap p.1 k) with
  | some p => some p.2
  | none => none

/-! ### The AMF0 serializer -/

/-- The common body of ser0_write_string (serializer.c:243-250) once the
bytes and length are known: `str` already is the full byte run for a
string and the `strlen`-truncated run for a symbol. -/
def ser0_write_string_raw (str : List Nat) (write_marker : Bool) : SerM Unit := do
  if str.length > 0xffff then do
    if write_marker then ser_write_byte AMF0_LONG_STRING_MARKER
    ser_write_uint32 (str.length : Int)
  else do
    if write_marker then ser_write_byte AMF0_STRING_MARKER
    ser_write_uint16 (str.length : Int)
  ser_write str

/-- ser0_write_string (serializer.c:221-251): strings write their full
`RSTRING_LEN` bytes, symbols their `rb_id2name` C string; anything else
raises ArgumentError. -/
def ser0_write_string (heap : List HObj) (obj : Nat) (write_marker : Bool) : SerM Unit :=
  match hget heap obj with
  | .hstr b => ser0_write_string_raw b write_marker
  | .hsym b => ser0_write_string_raw (cstr b) write_marker
  | _ => throwS .argErr

/-- ser0_hash_iter (serializer.c:257-269) over the property list.  With
translate_case the key is first rebuilt by `camelcase_str`, which walks
the key's C string. -/
def ser0_hash_iter (heap : List HObj) (tc : Bool)
    (ser0 : Nat → SerM (Option (List Nat))) : List (Nat × Nat) → SerM Unit
  | [] => pure ()
  | (key, val) :: rest => do
    if tc then
      ser0_write_string_raw (camelcase_str (cstr (strValBytes (hget heap key)))) false
    else
      ser0_write_string heap key false
    _ ← ser0 val
    ser0_hash_iter heap tc ser0 rest

/-- ser0_write_object0 (serializer.c:277-329). -/
def ser0_write_object0 (heap : List HObj) (tc : Bool)
    (ser0 : Nat → SerM (Option (List Nat))) (obj : Nat)
    (props? : Option (List (Nat × Nat))) : SerM Unit := do
  modifyS fun s => { s with objCache := s.objCache ++ [obj] }
  let props := match props? with
    | some p => p
    | none => props_for_serialization heap obj
  match get_as_class_name heap obj with
  | some class_name => do
    ser_write_byte AMF0_TYPED_OBJECT_MARKER
    ser0_write_string_raw class_name false
  | none =>
    match hget heap obj with
    | .hhash pairs => do
      ser_write_byte AMF0_HASH_MARKER
      ser_write_uint32 (pairs.length : Int)
    | _ => ser_write_byte AMF0_OBJECT_MARKER
  ser0_hash_iter heap tc ser0 props
  ser_write_uint16 0
  ser_write_byte AMF0_OBJECT_END_MARKER

/-- The element loop of ser0_write_array (serializer.c:209-211) and
ser3_write_array (serializer.c:507-510). -/
def ser_elems_loop (ser : Nat → SerM (Option (List Nat))) : List Nat → SerM Unit
  | [] => pure ()
  | e :: rest => do
    _ ← ser e
    ser_elems_loop ser rest

/-- ser0_write_array (serializer.c:196-214): cache, marker, u32 length,
elements. -/
def ser0_write_array (heap : List HObj) (ser0 : Nat → SerM (Option (List Nat)))
    (ary : Nat) : SerM Unit := do
  modifyS fun s => { s with objCache := s.objCache ++ [ary] }
  match hget heap ary with
  | .harray elems => do
    ser_write_byte AMF0_STRICT_ARRAY_MARKER
    ser_write_uint32 (elems.length : Int)
    ser_elems_loop ser0 elems
  | _ => pure ()

/-- ser0_write_time (serializer.c:349-361): the UTC millisecond double is
carried on the host value as its eight wire bytes. -/
def ser0_write_time (dbl : List Nat) : SerM Unit := do
  ser_write_byte AMF0_DATE_MARKER
  ser_write_double dbl
  ser_write_uint16 0

/-- ser0_write_date (serializer.c:363-373). -/
def ser0_write_date (dbl : List Nat) : SerM Unit := do
  ser_write_byte AMF0_DATE_MARKER
  ser_write_double dbl
  ser_write_uint16 0

/-- The dispatch body of ser0_serialize (serializer.c:396-433): reference
check, then the `TYPE(obj)` / class chain.  No modelled value defines
`encode_amf`.  A StringIO or unknown value matches no branch and writes
nothing. -/
def ser0_dispatch (heap : List HObj) (tc : Bool)
    (ser0 : Nat → SerM (Option (List Nat))) (obj : Nat) : SerM Unit := do
  let s ← getS
  match stLookup natEq s.objCache obj with
  | some idx => do
    ser_write_byte AMF0_REFERENCE_MARKER
    ser_write_uint16 (idx : Int)
  | none =>
    match hget heap obj with
    | .hstr _ => ser0_write_string heap obj true
    | .hsym _ => ser0_write_string heap obj true
    | .hfix _ dbl => do
      ser_write_byte AMF0_NUMBER_MARKER
      ser_write_double dbl
    | .hfloat dbl => do
      ser_write_byte AMF0_NUMBER_MARKER
      ser_write_double dbl
    | .hnil => ser_write_byte AMF0_NULL_MARKER
    | .htrue => do
      ser_write_byte AMF0_BOOLEAN_MARKER
      ser_write_byte 1
    | .hfalse => do
      ser_write_byte AMF0_BOOLEAN_MARKER
      ser_write_byte 0
    | .harray _ => ser0_write_array heap ser0 obj
    | .htime dbl => ser0_write_time dbl
    | .hdate dbl => ser0_write_date dbl
    | .hbig dbl => do
      ser_write_byte AMF0_NUMBER_MARKER
      ser_write_double dbl
    | .hhash _ => ser0_write_object0 heap tc ser0 obj none
    | .hobject _ _ => ser0_write_object0 heap tc ser0 obj none
    | .hstringio _ => pure ()
    | .hother => pure ()

/-- ser0_serialize (serializer.c:381-443): the Finalized sink check
(depth == -1 returns Qnil untouched), depth bracketing around the
dispatch, and the depth-0 epilogue that returns the stream and moves the
session to the sink state. -/
def ser0_serialize (heap : List HObj) (tc : Bool) :
    Nat → Nat → SerM (Option (List Nat))
  | 0, _ => throwS .outOfFuel
  | fuel + 1, obj => do
    let s ← getS
    if s.depth = -1 then pure none
    else do
      modifyS fun s => { s with depth := s.depth + 1 }
      ser0_dispatch heap tc (ser0_serialize heap tc fuel) obj
      modifyS fun s => { s with depth := s.depth - 1 }
      let s2 ← getS
      if s2.depth = 0 then do
        modifyS fun s => { s with depth := -1 }
        pure (some s2.stream)
      else pure none

/-! ### The AMF3 serializer -/

/-- The argument of ser3_write_utf8vr (serializer.c:519-555): a string, a
symbol, Qnil, or an invalid value. -/
inductive UStr where
  | ustr (bytes : List Nat)
  | usym (bytes : List Nat)
  | unil
  | uother
deriving DecidableEq

def toUStr (heap : List HObj) (r : Nat) : UStr :=
  match hget heap r with
  | .hstr b => .ustr b
  | .hsym b => .usym b
  | .hnil => .unil
  | _ => .uother

/-- The write path of ser3_write_utf8vr (serializer.c:543-554) once `str`
and `len` are resolved: empty strings are a bare `AMF3_EMPTY_STRING` byte,
cached strings a back-reference, new non-empty strings are interned
(`strdup`, hence `cstr`-keyed) and written inline. -/
def utf8vr_write (str : List Nat) (len : Nat) : SerM Unit := do
  if len = 0 then ser_write_byte AMF3_EMPTY_STRING
  else do
    let s ← getS
    match stLookup bytesEq s.strCache (cstr str) with
    | some idx => mWriteInt ((idx <<< 1 : Nat) : Int)
    | none => do
      modifyS fun s => { s with strCache := s.strCache ++ [cstr str] }
      mWriteInt ((len <<< 1 ||| 1 : Nat) : Int)
      ser_write str

/-- ser3_write_utf8vr (serializer.c:519-555). -/
def ser3_write_utf8vr (obj : UStr) : SerM Unit :=
  match obj with
  | .ustr b => utf8vr_write b b.length
  | .usym b => utf8vr_write (cstr b) (cstr b).length
  | .unil => ser_write_byte AMF3_EMPTY_STRING
  | .uother => throwS .argErr

/-- ser3_hash_iter (serializer.c:561-574): skip the sealed members,
optionally camelcase the key, write key then value. -/
def ser3_hash_iter (heap : List HObj) (tc : Bool)
    (ser3 : Nat → SerM (Option (List Nat))) (skipped : List Nat) :
    List (Nat × Nat) → SerM Unit
  | [] => pure ()
  | (key, val) :: rest => do
    if skipped.any (fun m => hKeyEq heap m key) then pure ()
    else do
      if tc then
        ser3_write_utf8vr (.ustr (camelcase_str (cstr (strValBytes (hget heap key)))))
      else
        ser3_write_utf8vr (toUStr heap key)
      _ ← ser3 val
      pure ()
    ser3_hash_iter heap tc ser3 skipped rest

/-- An explicit traits argument to write_object (serializer.c:614-622);
`none` members stand for Qnil. -/
structure STraits where
  className : Option (List Nat)
  members : List Nat
  dynamic : Bool
  externalizable : Bool
deriving DecidableEq

/-- The member-name loop of serializer.c:650-652. -/
def ser3_write_members_loop (heap : List HObj) : List Nat → SerM Unit
  | [] => pure ()
  | m :: rest => do
    ser3_write_utf8vr (toUStr heap m)
    ser3_write_members_loop heap rest

/-- The sealed-member value loop of serializer.c:667-673: each member is
looked up in the props hash (a miss is Qnil, a reference past the heap)
and serialized. -/
def ser3_sealed_loop (heap : List HObj) (ser3 : Nat → SerM (Option (List Nat)))
    (props : List (Nat × Nat)) : List Nat → SerM Unit
  | [] => pure ()
  | m :: rest => do
    let mem := match hashAref heap props m with
      | some v => v
      | none => heap.length
    _ ← ser3 mem
    ser3_sealed_loop heap ser3 props rest

/-- ser3_write_object0 (serializer.c:584-697). -/
def ser3_write_object0 (heap : List HObj) (tc : Bool)
    (ser3 : Nat → SerM (Option (List Nat))) (obj : Nat)
    (props? : Option (List (Nat × Nat))) (traits? : Option STraits) : SerM Unit := do
  ser_write_byte AMF3_OBJECT_MARKER
  let s ← getS
  match stLookup natEq s.objCache obj with
  | some idx => mWriteInt ((idx <<< 1 : Nat) : Int)
  | none => do
    modifyS fun s => { s with objCache := s.objCache ++ [obj] }
    let traits : STraits := match traits? with
      | none => ⟨get_as_class_name heap obj, [], true, false⟩
      | some t => t
    let did_ref ← (match traits.className with
      | some cn => do
        let s1 ← getS
        match stLookup bytesEq s1.traitCache (cstr cn) with
        | some ti => do
          mWriteInt ((ti <<< 2 ||| 0x01 : Nat) : Int)
          pure true
        | none => do
          modifyS fun s => { s with traitCache := s.traitCache ++ [cstr cn] }
          pure false
      | none => pure false : SerM Bool)
    if did_ref then pure ()
    else do
      let header : Nat := (0x03 |||
        (if traits.dynamic then 0x02 <<< 2 else 0) |||
        (if traits.externalizable then 0x01 <<< 2 else 0)) |||
        (traits.members.length <<< 4)
      mWriteInt (header : Int)
      ser3_write_utf8vr (match traits.className with
        | some cn => .ustr cn
        | none => .unil)
      ser3_write_members_loop heap traits.members
    if traits.externalizable then throwS .externalizable
    else do
      let props := match props? with
        | some p => p
        | none => props_for_serialization heap obj
      ser3_sealed_loop heap ser3 props traits.members
      if traits.dynamic then do
        ser3_hash_iter heap tc ser3 traits.members props
        ser_write_byte AMF3_CLOSE_DYNAMIC_OBJECT

/-- ser3_write_array (serializer.c:483-513). -/
def ser3_write_array (heap : List HObj) (ser3 : Nat → SerM (Option (List Nat)))
    (ary : Nat) : SerM Unit := do
  ser_write_byte AMF3_ARRAY_MARKER
  let s ← getS
  match stLookup natEq s.objCache ary with
  | some idx => mWriteInt ((idx <<< 1 : Nat) : Int)
  | none => do
    modifyS fun s => { s with objCache := s.objCache ++ [ary] }
    match hget heap ary with
    | .harray elems => do
      mWriteInt ((elems.length <<< 1 ||| 1 : Nat) : Int)
      ser_write_byte AMF3_CLOSE_DYNAMIC_ARRAY
      ser_elems_loop ser3 elems
    | _ => pure ()

/-- ser3_write_time (serializer.c:719-742): marker, reference or cache,
then an inline ref header byte and the millisecond double. -/
def ser3_write_time (obj : Nat) (dbl : List Nat) : SerM Unit := do
  ser_write_byte AMF3_DATE_MARKER
  let s ← getS
  match stLookup natEq s.objCache obj with
  | some idx => mWriteInt ((idx <<< 1 : Nat) : Int)
  | none => do
    modifyS fun s => { s with objCache := s.objCache ++ [obj] }
    ser_write_byte AMF3_NULL_MARKER
    ser_write_double dbl

/-- ser3_write_date (serializer.c:744-765). -/
def ser3_write_date (obj : Nat) (dbl : List Nat) : SerM Unit := do
  ser_write_byte AMF3_DATE_MARKER
  let s ← getS
  match stLookup natEq s.objCache obj with
  | some idx => mWriteInt ((idx <<< 1 : Nat) : Int)
  | none => do
    modifyS fun s => { s with objCache := s.objCache ++ [obj] }
    ser_write_byte AMF3_NULL_MARKER
    ser_write_double dbl

/-- ser3_write_byte_array (serializer.c:767-786): the StringIO content is
written as a UTF-8-vr. -/
def ser3_write_byte_array (obj : Nat) (content : List Nat) : SerM Unit := do
  ser_write_byte AMF3_BYTE_ARRAY_MARKER
  let s ← getS
  match stLookup natEq s.objCache obj with
  | some idx => mWriteInt ((idx <<< 1 : Nat) : Int)
  | none => do
    modifyS fun s => { s with objCache := s.objCache ++ [obj] }
    ser3_write_utf8vr (.ustr content)

/-- The dispatch body of ser3_serialize (serializer.c:810-850).  Unlike
AMF0 there is no top-level reference check; each container helper does its
own.  A value matching no branch writes nothing. -/
def ser3_dispatch (heap : List HObj) (tc : Bool)
    (ser3 : Nat → SerM (Option (List Nat))) (obj : Nat) : SerM Unit :=
  match hget heap obj with
  | .hstr _ => do
    ser_write_byte AMF3_STRING_MARKER
    ser3_write_utf8vr (toUStr heap obj)
  | .hsym _ => do
    ser_write_byte AMF3_STRING_MARKER
    ser3_write_utf8vr (toUStr heap obj)
  | .hfix n dbl =>
    if n < MIN_INTEGER ∨ n > MAX_INTEGER then do
      ser_write_byte AMF3_DOUBLE_MARKER
      ser_write_double dbl
    else do
      ser_write_byte AMF3_INTEGER_MARKER
      mWriteInt n
  | .hfloat dbl => do
    ser_write_byte AMF3_DOUBLE_MARKER
    ser_write_double dbl
  | .hnil => ser_write_byte AMF3_NULL_MARKER
  | .htrue => ser_write_byte AMF3_TRUE_MARKER
  | .hfalse => ser_write_byte AMF3_FALSE_MARKER
  | .harray _ => ser3_write_array heap ser3 obj
  | .hhash _ => ser3_write_object0 heap tc ser3 obj none none
  | .htime dbl => ser3_write_time obj dbl
  | .hdate dbl => ser3_write_date obj dbl
  | .hstringio content => ser3_write_byte_array obj content
  | .hbig dbl => do
    ser_write_byte AMF3_DOUBLE_MARKER
    ser_write_double dbl
  | .hobject _ _ => ser3_write_object0 heap tc ser3 obj none none
  | .hother => pure ()

/-- ser3_serialize (serializer.c:789-860): same session bracket as AMF0.
-/
def ser3_serialize (heap : List HObj) (tc : Bool) :
    Nat → Nat → SerM (Option (List Nat))
  | 0, _ => throwS .outOfFuel
  | fuel + 1, obj => do
    let s ← getS
    if s.depth = -1 then pure none
    else do
      modifyS fun s => { s with depth := s.depth + 1 }
      ser3_dispatch heap tc (ser3_serialize heap tc fuel) obj
      modifyS fun s => { s with depth := s.depth - 1 }
      let s2 ← getS
      if s2.depth = 0 then do
        modifyS fun s => { s with depth := -1 }
        pure (some s2.stream)
      else pure none

/-- A fresh serializer session (ser0_alloc / ser3_alloc). -/
def initSerState : SerState := ⟨[], 0, [], [], []⟩

def serialize0 (heap : List HObj) (tc : Bool) (fuel : Nat) (obj : Nat) :
    SRes (Option (List Nat)) :=
  ser0_serialize heap tc fuel obj initSerState

def serialize3 (heap : List HObj) (tc : Bool) (fuel : Nat) (obj : Nat) :
    SRes (Option (List Nat)) :=
  ser3_serialize heap tc fuel obj initSerState

/-! ## Concrete decoding scenarios -/

/-- The AMF3 stream of spec §8.2.6 extended with two explicit
back-references: a top-level array holding an ArrayCollection-wrapped
`[1, 2]`, an object reference of index 1 and an array reference of
index 2. -/
def acTestStream : List Nat :=
  [0x09, 0x07, 0x01, 0x0A, 0x07, 0x43] ++ arrayCollectionName ++
  [0x09, 0x05, 0x01, 0x04, 0x01, 0x04, 0x02, 0x09, 0x02, 0x09, 0x04]

/-- C4: during decoding a container is appended to the object cache before
its contents are parsed, so a self-referencing value resolves to itself:
the AMF0 bytes `0A 00 00 00 01 07 00 00` decode to the heap reference 0,
an array of length one whose single element is reference 0 — the same
array. -/
theorem C4_amf0_circular_array :
    deserialize0 false 3 [0x0A, 0x00, 0x00, 0x00, 0x01, 0x07, 0x00, 0x00] =
      .ok 0 ⟨8, [.rarray [0]], [0], [], [], []⟩ := by
  have hu32 : (((0 <<< 24 ||| 0 <<< 16) ||| 0 <<< 8) ||| (1 : Nat)) = 1 := by decide
  have hu16 : ((0 <<< 8) ||| (0 : Nat)) = 0 := by decide
  simp [deserialize0, initState, des0_deserialize, des0_read_array, des0_array_loop,
    mReadByte, mReadUInt32, mReadUInt16, hu32, hu16,
    allocObj, getObj, setObj, pushObjCache, cacheNth, arrayPush,
    throwD, getD, modifyD, DecM_bind_apply, DecM_pure_apply,
    AMF0_NUMBER_MARKER, AMF0_BOOLEAN_MARKER, AMF0_STRING_MARKER, AMF0_OBJECT_MARKER,
    AMF0_NULL_MARKER, AMF0_UNDEFINED_MARKER, AMF0_REFERENCE_MARKER, AMF0_HASH_MARKER,
    AMF0_STRICT_ARRAY_MARKER, AMF0_DATE_MARKER, AMF0_LONG_STRING_MARKER,
    AMF0_UNSUPPORTED_MARKER, AMF0_XML_MARKER, AMF0_TYPED_OBJECT_MARKER, AMF0_AMF3_MARKER]

/-- C3: when an inline AMF3 object's traits carry the class name
"flex.messaging.io.ArrayCollection" (compared as C strings), the wrapper is
transparent — des3_read_object returns the next decoded AMF3 value and
appends it to the object cache a second time; and in the concrete stream of
spec §8.2.6, the wrapper decodes to the plain inner array (heap reference
4 = `[Integer 1, Integer 2]`), the object cache holds that reference at
both index 1 and index 2, and the two trailing back-references to those
indices both resolve to it, so the outer array is three copies of the very
same reference. -/
theorem C3_array_collection_flattening :
    (∀ (stream : List Nat) (tc : Bool) (des3 : DecM Nat) (fuel : Nat)
        (st : DState) (h : Int) (p1 : Nat) (traits : Traits) (st1 : DState)
        (nb : List Nat) (arr : Nat) (st2 : DState),
        des_read_int stream st.pos = some (h, p1) →
        ¬ (h % 2 = 0) →
        des3_parse_traits stream (h / 2) { st with pos := p1 } = .ok traits st1 →
        strBytes traits.className st1 = .ok nb st1 →
        cstrEq nb arrayCollectionName = true →
        des3 st1 = .ok arr st2 →
        des3_read_object stream tc des3 fuel st =
          .ok arr { st2 with objCache := st2.objCache ++ [arr] }) ∧
    deserialize3 false 4 acTestStream =
      .ok 1 ⟨50, [.rstr [], .rarray [4, 4, 4],
        .rstr arrayCollectionName, .rstr [], .rarray [5, 6], .rint 1, .rint 2],
        [1, 4, 4], [2], [⟨true, false, [], 2⟩], []⟩ := by
  constructor
  · intro stream tc des3 fuel st h p1 traits st1 nb arr st2 hread hodd htr hnb hac hdes
    simp only [des3_read_object, mReadInt, DecM_bind_apply, hread]
    simp only [hodd, if_false, ite_false, htr, hnb, hac, ite_true, DecM_bind_apply, hdes,
      pushObjCache, modifyD, DecM_pure_apply]
  · have hl : acTestStream.length = 50 := by decide
    have g0 : acTestStream[0] = 9 := by decide
    have g3 : acTestStream[3] = 10 := by decide
    have g39 : acTestStream[39] = 9 := by decide
    have g42 : acTestStream[42] = 4 := by decide
    have g44 : acTestStream[44] = 4 := by decide
    have g46 : acTestStream[46] = 9 := by decide
    have g48 : acTestStream[48] = 9 := by decide
    have r1 : des_read_int acTestStream 1 = some (7, 2) := by decide
    have r2 : des_read_int acTestStream 2 = some (1, 3) := by decide
    have r3 : des_read_int acTestStream 4 = some (7, 5) := by decide
    have r4 : des_read_int acTestStream 5 = some (67, 6) := by decide
    have r5 : des_read_int acTestStream 40 = some (5, 41) := by decide
    have r6 : des_read_int acTestStream 41 = some (1, 42) := by decide
    have r7 : des_read_int acTestStream 43 = some (1, 44) := by decide
    have r8 : des_read_int acTestStream 45 = some (2, 46) := by decide
    have r9 : des_read_int acTestStream 47 = some (2, 48) := by decide
    have r10 : des_read_int acTestStream 49 = some (4, 50) := by decide
    have hd3 : (acTestStream.drop 3).take 0 = [] := by decide
    have hd42 : (acTestStream.drop 42).take 0 = [] := by decide
    have hname : (acTestStream.drop 6).take 33 = arrayCollectionName := by decide
    have hcs : cstrEq arrayCollectionName arrayCollectionName = true := by decide
    have hal : arrayCollectionName.length = 33 := by decide
    have p1 : ¬ ((2 : Int) ∣ 7) := by decide
    have p2 : ¬ ((2 : Int) ∣ 1) := by decide
    have p3 : ¬ ((2 : Int) ∣ 3) := by decide
    have p4 : ¬ ((2 : Int) ∣ 67) := by decide
    have p5 : ¬ ((2 : Int) ∣ 5) := by decide
    have p6 : ((2 : Int) ∣ 2) := by decide
    have p7 : ((2 : Int) ∣ 4) := by decide
    simp [deserialize3, initState, des3_deserialize, des3_read_array, des3_read_string,
      des3_read_object, des3_parse_traits, des3_read_members, des3_assoc_loop,
      des3_dense_loop, des3_hash_dense_loop, mReadByte, mReadString, mReadInt,
      hl, g0, g3, g39, g42, g44, g46, g48,
      r1, r2, r3, r4, r5, r6, r7, r8, r9, r10, hd3, hd42, hname, hcs, hal,
      p1, p2, p3, p4, p5, p6, p7,
      allocObj, getObj, setObj, pushObjCache, pushStrCache, pushTraitCache, cacheNth,
      strLen, strBytes, arrayPush, throwD, getD, modifyD, DecM_bind_apply, DecM_pure_apply,
      AMF3_UNDEFINED_MARKER, AMF3_NULL_MARKER, AMF3_FALSE_MARKER, AMF3_TRUE_MARKER,
      AMF3_INTEGER_MARKER, AMF3_DOUBLE_MARKER, AMF3_STRING_MARKER, AMF3_XML_DOC_MARKER,
      AMF3_DATE_MARKER, AMF3_ARRAY_MARKER, AMF3_OBJECT_MARKER, AMF3_XML_MARKER,
      AMF3_BYTE_ARRAY_MARKER, AMF3_DICT_MARKER]

/-- A minimal stream holding one inline ArrayCollection object that wraps
the integer 5: traits header `0x07`, the class name, then `04 05`. -/
def acWitnessStream : List Nat := [0x07, 0x43] ++ arrayCollectionName ++ [0x04, 0x05]

/-- Witness for C3 at the concrete stream `acWitnessStream`. -/
theorem C3_array_collection_flattening_witness :
    des3_read_object acWitnessStream false (des3_deserialize acWitnessStream false 1) 1
      (initState 0 [] []) =
      .ok 1 ⟨37, [.rstr arrayCollectionName, .rint 5], [1], [0],
        [⟨true, false, [], 0⟩], []⟩ := by
  have hl : acWitnessStream.length = 37 := by decide
  have g35 : acWitnessStream[35] = 4 := by decide
  have r0 : des_read_int acWitnessStream 0 = some (7, 1) := by decide
  have r1 : des_read_int acWitnessStream 1 = some (67, 2) := by decide
  have r36 : des_read_int acWitnessStream 36 = some (5, 37) := by decide
  have hname : (acWitnessStream.drop 2).take 33 = arrayCollectionName := by decide
  have hcs : cstrEq arrayCollectionName arrayCollectionName = true := by decide
  have hal : arrayCollectionName.length = 33 := by decide
  have p3 : ¬ ((2 : Int) ∣ 3) := by decide
  have p67 : ¬ ((2 : Int) ∣ 67) := by decide
  have htr : des3_parse_traits acWitnessStream (7 / 2)
      { (initState 0 [] []) with pos := 1 } =
      .ok ⟨true, false, [], 0⟩
        ⟨35, [.rstr arrayCollectionName], [], [0], [⟨true, false, [], 0⟩], []⟩ := by
    simp [des3_parse_traits, des3_read_string, des3_read_members, initState,
      mReadInt, mReadString, r1, hname, hal, p3, p67, hl,
      allocObj, pushStrCache, pushTraitCache, cacheNth,
      throwD, getD, modifyD, DecM_bind_apply, DecM_pure_apply]
  have hdes : des3_deserialize acWitnessStream false 1
      ⟨35, [.rstr arrayCollectionName], [], [0], [⟨true, false, [], 0⟩], []⟩ =
      .ok 1 ⟨37, [.rstr arrayCollectionName, .rint 5], [], [0],
        [⟨true, false, [], 0⟩], []⟩ := by
    simp [des3_deserialize, mReadByte, mReadInt, r36, g35, hl,
      allocObj, throwD, getD, modifyD, DecM_bind_apply, DecM_pure_apply,
      AMF3_UNDEFINED_MARKER, AMF3_NULL_MARKER, AMF3_FALSE_MARKER, AMF3_TRUE_MARKER,
      AMF3_INTEGER_MARKER]
  have hnb : strBytes (⟨true, false, [], (0 : Nat)⟩ : Traits).className
      ⟨35, [.rstr arrayCollectionName], [], [0], [⟨true, false, [], 0⟩], []⟩ =
      .ok arrayCollectionName
        ⟨35, [.rstr arrayCollectionName], [], [0], [⟨true, false, [], 0⟩], []⟩ := by
    simp [strBytes, getObj, DecM_bind_apply, DecM_pure_apply, throwD]
  exact C3_array_collection_flattening.1 acWitnessStream false
    (des3_deserialize acWitnessStream false 1) 1 (initState 0 [] []) 7 1
    ⟨true, false, [], 0⟩ _ arrayCollectionName 1 _ r0 (by decide) htr hnb hcs hdes

/-- C7 counterexample: the AMF3 string-reference stream
`06 C0 80 80 00` decodes its U29 header to the negative value `-2^28`, an
even (reference) header whose index `-2^27` is less than the table length,
so the claimed dichotomy fails: the decoder neither raises BadReference nor
returns a table entry — it performs an out-of-bounds table access
(`RARRAY_PTR(str_cache)[-134217728]`). -/
theorem C7_negative_reference_counterexample :
    deserialize3 false 3 [0x06, 0xC0, 0x80, 0x80, 0x00] =
      .err .cacheOob ⟨5, [], [], [], [], []⟩ ∧
    DErr.cacheOob ≠ DErr.badRef := by
  refine ⟨?_, by decide⟩
  have r1 : des_read_int [0x06, 0xC0, 0x80, 0x80, 0x00] 1 = some (-268435456, 5) := by decide
  have p1 : ((2 : Int) ∣ -268435456) := by decide
  simp [deserialize3, initState, des3_deserialize, des3_read_string,
    mReadByte, mReadInt, mReadString, r1, p1, allocObj, pushStrCache, cacheNth,
    throwD, getD, modifyD, DecM_bind_apply, DecM_pure_apply,
    AMF3_UNDEFINED_MARKER, AMF3_NULL_MARKER, AMF3_FALSE_MARKER, AMF3_TRUE_MARKER,
    AMF3_INTEGER_MARKER, AMF3_DOUBLE_MARKER, AMF3_STRING_MARKER, AMF3_XML_DOC_MARKER,
    AMF3_DATE_MARKER, AMF3_ARRAY_MARKER, AMF3_OBJECT_MARKER, AMF3_XML_MARKER,
    AMF3_BYTE_ARRAY_MARKER, AMF3_DICT_MARKER]

/-- C2 counterexample: decoding the truncated AMF0 object `03 00 01 61`
does fail with UnexpectedEnd, but on the way `des_read_sym` touches byte
index 4 of the four-byte buffer (recorded in the ghost `symTouched` field):
its bounds check `pos + len <= size` passes with pos 3, len 1, yet the C
reads and temporarily overwrites `stream[4]`, one past the buffer. -/
theorem C2_read_sym_oob_counterexample :
    deserialize0 false 3 [0x03, 0x00, 0x01, 0x61] =
      .err .unexpectedEnd ⟨4, [.rhash [], .rsym [97]], [0], [], [], [3, 4]⟩ ∧
    (4 : Nat) ∈ ([3, 4] : List Nat) ∧
    ([0x03, 0x00, 0x01, 0x61] : List Nat).length = 4 := by
  refine ⟨?_, by decide, by decide⟩
  have hu16 : ((0 <<< 8) ||| (1 : Nat)) = 1 := by decide
  have hsym : (([0x03, 0x00, 0x01, 0x61].drop 3).take 1 : List Nat) = [97] := by decide
  have hrm : (List.range 2).map (fun x => 3 + x) = [3, 4] := by decide
  simp [deserialize0, initState, des0_deserialize, des0_read_object, des0_read_props,
    des0_key_sym, mReadByte, mReadUInt16, mReadSym, hu16, hsym, hrm,
    allocObj, getObj, setObj, pushObjCache, hashAset, keyEq,
    throwD, getD, modifyD, DecM_bind_apply, DecM_pure_apply,
    AMF0_NUMBER_MARKER, AMF0_BOOLEAN_MARKER, AMF0_STRING_MARKER, AMF0_OBJECT_MARKER,
    AMF0_NULL_MARKER, AMF0_UNDEFINED_MARKER, AMF0_REFERENCE_MARKER, AMF0_HASH_MARKER,
    AMF0_STRICT_ARRAY_MARKER, AMF0_DATE_MARKER, AMF0_LONG_STRING_MARKER,
    AMF0_UNSUPPORTED_MARKER, AMF0_XML_MARKER, AMF0_TYPED_OBJECT_MARKER, AMF0_AMF3_MARKER]

/-! ## Serializer session properties -/

theorem ser_write_int_isSome (num : Int) : ∃ bytes, ser_write_int num = some bytes := by
  have hm0 : 0 ≤ num % 0x20000000 := Int.emod_nonneg num (by norm_num)
  have hmlt : num % 0x20000000 < 0x20000000 := Int.emod_lt_of_pos num (by norm_num)
  simp only [ser_write_int]
  split_ifs with h1 h2 h3 h4
  · exact ⟨_, rfl⟩
  · exact ⟨_, rfl⟩
  · exact ⟨_, rfl⟩
  · exact ⟨_, rfl⟩
  · exact absurd (by omega : (num % 0x20000000).toNat < 0x40000000) h4

/-- C10: a host value whose kind matches none of the dispatch branches is
silently skipped by both serializers: the top-level call appends nothing
and returns the empty byte string, finalizing the session. -/
theorem C10_unknown_type_silent :
    serialize0 [.hother] false 1 0 = .ok (some []) ⟨[], -1, [], [], []⟩ ∧
    serialize3 [.hother] false 1 0 = .ok (some []) ⟨[], -1, [], [], []⟩ := by
  constructor
  · rfl
  · rfl

/-- C9: the serializer session is a sink after a completed top-level call:
any call (AMF0 or AMF3) that returns an encoded byte string leaves the
session at depth -1, and any call entered at depth -1 returns Qnil at once
with the session — in particular the stream — unchanged. -/
theorem C9_finalized_sink :
    (∀ (heap : List HObj) (tc : Bool) (fuel obj : Nat) (s : SerState)
        (bytes : List Nat) (s' : SerState),
        ser0_serialize heap tc fuel obj s = .ok (some bytes) s' → s'.depth = -1) ∧
    (∀ (heap : List HObj) (tc : Bool) (fuel obj : Nat) (s : SerState),
        s.depth = -1 → ser0_serialize heap tc (fuel + 1) obj s = .ok none s) ∧
    (∀ (heap : List HObj) (tc : Bool) (fuel obj : Nat) (s : SerState)
        (bytes : List Nat) (s' : SerState),
        ser3_serialize heap tc fuel obj s = .ok (some bytes) s' → s'.depth = -1) ∧
    (∀ (heap : List HObj) (tc : Bool) (fuel obj : Nat) (s : SerState),
        s.depth = -1 → ser3_serialize heap tc (fuel + 1) obj s = .ok none s) := by
  refine ⟨?_, ?_, ?_, ?_⟩
  · intro heap tc fuel obj s bytes s' h
    match fuel with
    | 0 => simp [ser0_serialize, throwS] at h
    | fuel + 1 =>
      rw [ser0_serialize] at h
      simp only [SerM_bind_apply, getS] at h
      by_cases hd : s.depth = -1
      · rw [if_pos hd] at h
        simp [SerM_pure_apply] at h
      · rw [if_neg hd] at h
        simp only [SerM_bind_apply, modifyS] at h
        cases hb : ser0_dispatch heap tc (ser0_serialize heap tc fuel) obj
            { s with depth := s.depth + 1 } with
        | err e s1 => rw [hb] at h; exact absurd h (by simp)
        | ok a s1 =>
          rw [hb] at h
          simp only [SerM_bind_apply, modifyS, getS] at h
          by_cases h2 : s1.depth - 1 = 0
          · simp only [h2, if_pos, SerM_bind_apply, modifyS, SerM_pure_apply] at h
            cases h
            rfl
          · simp [h2, SerM_pure_apply] at h
  · intro heap tc fuel obj s hd
    rw [ser0_serialize]
    simp only [SerM_bind_apply, getS, if_pos hd, SerM_pure_apply]
  · intro heap tc fuel obj s bytes s' h
    match fuel with
    | 0 => simp [ser3_serialize, throwS] at h
    | fuel + 1 =>
      rw [ser3_serialize] at h
      simp only [SerM_bind_apply, getS] at h
      by_cases hd : s.depth = -1
      · rw [if_pos hd] at h
        simp [SerM_pure_apply] at h
      · rw [if_neg hd] at h
        simp only [SerM_bind_apply, modifyS] at h
        cases hb : ser3_dispatch heap tc (ser3_serialize heap tc fuel) obj
            { s with depth := s.depth + 1 } with
        | err e s1 => rw [hb] at h; exact absurd h (by simp)
        | ok a s1 =>
          rw [hb] at h
          simp only [SerM_bind_apply, modifyS, getS] at h
          by_cases h2 : s1.depth - 1 = 0
          · simp only [h2, if_pos, SerM_bind_apply, modifyS, SerM_pure_apply] at h
            cases h
            rfl
          · simp [h2, SerM_pure_apply] at h
  · intro heap tc fuel obj s hd
    rw [ser3_serialize]
    simp only [SerM_bind_apply, getS, if_pos hd, SerM_pure_apply]

/-- Witness for C9: serializing nil in a fresh AMF0 session returns the
byte string `[0x05]` and leaves the session at depth -1; calling again on
the finalized session returns Qnil with nothing appended. -/
theorem C9_finalized_sink_witness :
    (⟨[0x05], -1, [], [], []⟩ : SerState).depth = -1 ∧
    ser0_serialize [] false 2 0 ⟨[0x05], -1, [], [], []⟩ =
      .ok none ⟨[0x05], -1, [], [], []⟩ ∧
    (⟨[0x01], -1, [], [], []⟩ : SerState).depth = -1 ∧
    ser3_serialize [] false 2 0 ⟨[0x01], -1, [], [], []⟩ =
      .ok none ⟨[0x01], -1, [], [], []⟩ :=
  ⟨C9_finalized_sink.1 [] false 1 0 initSerState [0x05] ⟨[0x05], -1, [], [], []⟩ rfl,
   C9_finalized_sink.2.1 [] false 1 0 ⟨[0x05], -1, [], [], []⟩ rfl,
   C9_finalized_sink.2.2.1 [] false 1 0 initSerState [0x01] ⟨[0x01], -1, [], [], []⟩ rfl,
   C9_finalized_sink.2.2.2 [] false 1 0 ⟨[0x01], -1, [], [], []⟩ rfl⟩

/-- C5: the empty string is never interned.  Decoding: `des3_read_string`
either returns a cached entry leaving the string cache unchanged, or
allocates the inline string and appends it to the string cache exactly
when it is non-empty.  Encoding: `ser3_write_utf8vr` writes nil and empty
strings as the single byte `0x01` without touching the cache, writes an
already-cached non-empty string as a back-reference, and interns a new
non-empty string on first appearance. -/
theorem C5_empty_string_never_interned :
    (∀ (stream : List Nat) (s : DState) (r : Nat) (s1 : DState),
        des3_read_string stream s = .ok r s1 →
        (r ∈ s.strCache ∧ s1.strCache = s.strCache) ∨
        (∃ b, s1.heap = s.heap ++ [.rstr b] ∧ r = s.heap.length ∧
          ((b = [] ∧ s1.strCache = s.strCache) ∨
           (b ≠ [] ∧ s1.strCache = s.strCache ++ [r])))) ∧
    (∀ s : SerState, ser3_write_utf8vr .unil s =
        .ok () { s with stream := s.stream ++ [0x01] }) ∧
    (∀ s : SerState, ser3_write_utf8vr (.ustr []) s =
        .ok () { s with stream := s.stream ++ [0x01] }) ∧
    (∀ (b : List Nat) (s : SerState) (idx : Nat), b ≠ [] →
        stLookup bytesEq s.strCache (cstr b) = some idx →
        ∃ enc, ser_write_int ((idx <<< 1 : Nat) : Int) = some enc ∧
          ser3_write_utf8vr (.ustr b) s =
            .ok () { s with stream := s.stream ++ enc }) ∧
    (∀ (b : List Nat) (s : SerState), b ≠ [] →
        stLookup bytesEq s.strCache (cstr b) = none →
        ∃ enc, ser_write_int ((b.length <<< 1 ||| 1 : Nat) : Int) = some enc ∧
          ser3_write_utf8vr (.ustr b) s =
            .ok () { s with stream := s.stream ++ enc ++ b,
                            strCache := s.strCache ++ [cstr b] }) := by
  refine ⟨?_, ?_, ?_, ?_, ?_⟩
  · intro stream s r s1 h
    cases hri : des_read_int stream s.pos with
    | none =>
      simp only [des3_read_string, DecM_bind_apply, mReadInt, hri] at h
      exact absurd h (by simp)
    | some vp =>
      obtain ⟨hdr, p⟩ := vp
      simp only [des3_read_string, DecM_bind_apply, mReadInt, hri] at h
      by_cases hev : hdr % 2 = 0
      · rw [if_pos hev] at h
        simp only [DecM_bind_apply, getD] at h
        by_cases hge : hdr / 2 ≥ ((s.strCache.length : Int))
        · rw [if_pos hge] at h
          simp only [throwD] at h
          exact absurd h (by simp)
        · rw [if_neg hge] at h
          simp only [cacheNth] at h
          split at h
          · cases h
            exact Or.inl ⟨List.get_mem _ _ _, rfl⟩
          · exact absurd h (by simp)
      · rw [if_neg hev] at h
        simp only [DecM_bind_apply, mReadString] at h
        by_cases hb1 : ((p : Int) + hdr / 2 > (stream.length : Int))
        · rw [if_pos hb1] at h
          exact absurd h (by simp)
        · rw [if_neg hb1] at h
          by_cases hb2 : hdr / 2 < 0
          · rw [if_pos hb2] at h
            exact absurd h (by simp)
          · rw [if_neg hb2] at h
            simp only [allocObj, DecM_bind_apply] at h
            by_cases hlen : ((stream.drop p).take (hdr / 2).toNat).length > 0
            · rw [if_pos hlen] at h
              simp only [pushStrCache, modifyD, DecM_pure_apply, DecM_bind_apply] at h
              cases h
              refine Or.inr ⟨(stream.drop p).take (hdr / 2).toNat, rfl, rfl,
                Or.inr ⟨?_, rfl⟩⟩
              intro hnil
              rw [hnil] at hlen
              simp at hlen
            · rw [if_neg hlen] at h
              simp only [DecM_pure_apply, DecM_bind_apply] at h
              cases h
              refine Or.inr ⟨(stream.drop p).take (hdr / 2).toNat, rfl, rfl,
                Or.inl ⟨?_, rfl⟩⟩
              have hz : ((stream.drop p).take (hdr / 2).toNat).length = 0 := by omega
              exact List.eq_nil_of_length_eq_zero hz
  · intro s
    simp [ser3_write_utf8vr, ser_write_byte, ser_write, modifyS, AMF3_EMPTY_STRING]
  · intro s
    simp [ser3_write_utf8vr, utf8vr_write, ser_write_byte, ser_write, modifyS,
      AMF3_EMPTY_STRING]
  · intro b s idx hb hlook
    obtain ⟨enc, henc⟩ := ser_write_int_isSome ((idx <<< 1 : Nat) : Int)
    refine ⟨enc, henc, ?_⟩
    have hlen : ¬ b.length = 0 := by simpa using hb
    simp only [ser3_write_utf8vr, utf8vr_write, SerM_bind_apply, getS, hlook, hlen,
      if_false, mWriteInt, henc]
  · intro b s hb hlook
    obtain ⟨enc, henc⟩ := ser_write_int_isSome ((b.length <<< 1 ||| 1 : Nat) : Int)
    refine ⟨enc, henc, ?_⟩
    have hlen : ¬ b.length = 0 := by simpa using hb
    simp only [ser3_write_utf8vr, utf8vr_write, SerM_bind_apply, getS, hlen, if_false,
      hlook, modifyS, mWriteInt, henc, ser_write, SerM_pure_apply]

/-- Witness for C5 at concrete inputs: the two-byte AMF3 stream
`03 61` decodes the inline one-byte string "a" (appended to the string
cache), and a fresh session interning the same string writes `03 61`. -/
theorem C5_empty_string_never_interned_witness :
    ((0 ∈ ([] : List Nat) ∧ ([0] : List Nat) = []) ∨
      (∃ b, [RObj.rstr [97]] = [] ++ [.rstr b] ∧ 0 = ([] : List RObj).length ∧
        ((b = [] ∧ ([0] : List Nat) = []) ∨
         (b ≠ [] ∧ ([0] : List Nat) = [] ++ [0])))) ∧
    (∃ enc, ser_write_int ((([97] : List Nat).length <<< 1 ||| 1 : Nat) : Int) = some enc ∧
      ser3_write_utf8vr (.ustr [97]) initSerState =
        .ok () ⟨[] ++ enc ++ [97], 0, [], [] ++ [cstr [97]], []⟩) :=
  ⟨C5_empty_string_never_interned.1 [0x03, 97] (initState 0 [] []) 0
      ⟨2, [.rstr [97]], [], [0], [], []⟩ (by decide),
   C5_empty_string_never_interned.2.2.2.2 [97] initSerState (by decide) (by decide)⟩

/-- C7 (amended): reference index checking.  For AMF0 object references the
index is an unsigned 16-bit read, so the claimed dichotomy holds: an index
at or past the table length raises BadReference and anything else returns
the table entry.  AMF3 reference headers are signed `int`s: the sole guard
`index >= RARRAY_LEN(table)` raises BadReference only for too-large
non-negative indices, while a negative index (e.g. from wire bytes
`C0 80 80 00`) passes the guard and reaches the raw out-of-bounds table
access `RARRAY_PTR(table)[index]` — neither BadReference nor a value. -/
theorem C7_reference_index_check :
    (∀ (stream : List Nat) (tc : Bool) (fuel : Nat) (s : DState) (idx : Nat)
        (s1 : DState),
        mReadUInt16 stream s = .ok idx s1 →
        ((idx ≥ s1.objCache.length →
          des0_deserialize stream tc (fuel + 1) AMF0_REFERENCE_MARKER s =
            .err .badRef s1) ∧
         (∀ hlt : idx < s1.objCache.length,
          des0_deserialize stream tc (fuel + 1) AMF0_REFERENCE_MARKER s =
            .ok (s1.objCache.get ⟨idx, hlt⟩) s1))) ∧
    (∀ (stream : List Nat) (s : DState) (h : Int) (p : Nat),
        des_read_int stream s.pos = some (h, p) →
        h % 2 = 0 →
        ((h / 2 ≥ (s.strCache.length : Int) →
          des3_read_string stream s = .err .badRef { s with pos := p }) ∧
         (0 ≤ h / 2 → ∀ hlt : (h / 2).toNat < s.strCache.length,
          des3_read_string stream s =
            .ok (s.strCache.get ⟨(h / 2).toNat, hlt⟩) { s with pos := p }) ∧
         (h / 2 < 0 →
          des3_read_string stream s = .err .cacheOob { s with pos := p }))) := by
  constructor
  · intro stream tc fuel s idx s1 hu16
    constructor
    · intro hge
      have hgeI : (idx : Int) ≥ (s1.objCache.length : Int) := by exact_mod_cast hge
      simp [des0_deserialize, DecM_bind_apply, DecM_pure_apply, hu16, getD, throwD,
        hgeI, AMF0_NUMBER_MARKER, AMF0_BOOLEAN_MARKER, AMF0_STRING_MARKER,
        AMF0_OBJECT_MARKER, AMF0_NULL_MARKER, AMF0_UNDEFINED_MARKER,
        AMF0_REFERENCE_MARKER, AMF0_HASH_MARKER, AMF0_STRICT_ARRAY_MARKER,
        AMF0_DATE_MARKER, AMF0_LONG_STRING_MARKER, AMF0_UNSUPPORTED_MARKER,
        AMF0_XML_MARKER, AMF0_TYPED_OBJECT_MARKER, AMF0_AMF3_MARKER]
      rw [if_pos hge]
      rfl
    · intro hlt
      have hltI : ¬ ((idx : Int) ≥ (s1.objCache.length : Int)) := by omega
      have hcond : 0 ≤ (idx : Int) ∧ ((idx : Int)).toNat < s1.objCache.length := by
        constructor
        · exact Int.ofNat_nonneg idx
        · simpa using hlt
      simp [des0_deserialize, DecM_bind_apply, DecM_pure_apply, hu16, getD, throwD,
        hltI, hcond, AMF0_NUMBER_MARKER, AMF0_BOOLEAN_MARKER,
        AMF0_STRING_MARKER, AMF0_OBJECT_MARKER, AMF0_NULL_MARKER,
        AMF0_UNDEFINED_MARKER, AMF0_REFERENCE_MARKER, AMF0_HASH_MARKER,
        AMF0_STRICT_ARRAY_MARKER, AMF0_DATE_MARKER, AMF0_LONG_STRING_MARKER,
        AMF0_UNSUPPORTED_MARKER, AMF0_XML_MARKER, AMF0_TYPED_OBJECT_MARKER,
        AMF0_AMF3_MARKER]
      rw [if_neg (by omega : ¬ s1.objCache.length ≤ idx)]
      simp only [cacheNth]
      rw [dif_pos hcond]
      simp
  · intro stream s h p hread hev
    refine ⟨?_, ?_, ?_⟩
    · intro hge
      simp only [des3_read_string, DecM_bind_apply, mReadInt, hread]
      rw [if_pos hev]
      simp only [DecM_bind_apply, getD]
      rw [if_pos hge]
      rfl
    · intro h0 hlt
      have hge : ¬ (h / 2 ≥ (s.strCache.length : Int)) := by omega
      simp only [des3_read_string, DecM_bind_apply, mReadInt, hread]
      rw [if_pos hev]
      simp only [DecM_bind_apply, getD]
      rw [if_neg hge]
      simp only [cacheNth]
      rw [dif_pos ⟨h0, hlt⟩]
    · intro hneg
      have hge : ¬ (h / 2 ≥ (s.strCache.length : Int)) := by
        have : (0 : Int) ≤ (s.strCache.length : Int) := Int.ofNat_nonneg _
        omega
      have hcond : ¬ (0 ≤ h / 2 ∧ (h / 2).toNat < s.strCache.length) := by
        intro hc
        omega
      simp only [des3_read_string, DecM_bind_apply, mReadInt, hread]
      rw [if_pos hev]
      simp only [DecM_bind_apply, getD]
      rw [if_neg hge]
      simp only [cacheNth]
      rw [dif_neg hcond]

/-- Witness for C7 at concrete inputs: an AMF0 reference of index 5 with a
one-entry table raises BadReference, index 0 returns the entry, and an
AMF3 string reference with header bytes `C0 80 80 00` (index `-2^27`)
reaches the out-of-bounds access. -/
theorem C7_reference_index_check_witness :
    des0_deserialize [0, 5] false 1 AMF0_REFERENCE_MARKER ⟨0, [], [42], [], [], []⟩ =
      .err .badRef ⟨2, [], [42], [], [], []⟩ ∧
    des0_deserialize [0, 0] false 1 AMF0_REFERENCE_MARKER ⟨0, [], [42], [], [], []⟩ =
      .ok 42 ⟨2, [], [42], [], [], []⟩ ∧
    des3_read_string [0xC0, 0x80, 0x80, 0x00] (initState 0 [] []) =
      .err .cacheOob ⟨4, [], [], [], [], []⟩ :=
  ⟨(C7_reference_index_check.1 [0, 5] false 0 ⟨0, [], [42], [], [], []⟩ 5
      ⟨2, [], [42], [], [], []⟩ (by decide)).1 (by decide),
   (C7_reference_index_check.1 [0, 0] false 0 ⟨0, [], [42], [], [], []⟩ 0
      ⟨2, [], [42], [], [], []⟩ (by decide)).2 (by decide),
   (C7_reference_index_check.2 [0xC0, 0x80, 0x80, 0x00] (initState 0 [] [])
      (-268435456) 4 (by decide) (by decide)).2.2 (by decide)⟩

/-! ## Truncation simulation

`SimF F` says of a stream-indexed decoding computation `F`: whenever it
succeeds, the cursor does not move backwards, the run is unchanged on any
truncation that keeps every consumed byte, and every truncation that cuts
a consumed byte fails with the bounds-check error (`UnexpectedEnd`). -/
def SimF {α : Type} (F : List Nat → DecM α) : Prop :=
  ∀ stream st a st', F stream st = .ok a st' →
    st.pos ≤ st'.pos ∧
    (∀ k, st'.pos ≤ k → F (stream.take k) st = .ok a st') ∧
    (∀ k, st.pos ≤ k → k < st'.pos →
      ∃ ste, F (stream.take k) st = .err .unexpectedEnd ste)

/-- A computation that cannot move the cursor. -/
def PosInv {α : Type} (m : DecM α) : Prop :=
  ∀ st a st', m st = .ok a st' → st'.pos = st.pos

theorem PosInv_pure {α : Type} (a : α) : PosInv (pure a : DecM α) := by
  intro st b st' h
  cases h
  rfl

theorem PosInv_throwD {α : Type} (e : DErr) : PosInv (throwD e : DecM α) := by
  intro st b st' h
  exact absurd h (by simp [throwD])

theorem PosInv_getD : PosInv getD := by
  intro st b st' h
  cases h
  rfl

theorem PosInv_bind {α β : Type} {m : DecM α} {f : α → DecM β}
    (hm : PosInv m) (hf : ∀ a, PosInv (f a)) : PosInv (m >>= f) := by
  intro st b st' h
  rw [DecM_bind_apply] at h
  cases hm1 : m st with
  | err e s1 => rw [hm1] at h; exact absurd h (by simp)
  | ok a s1 =>
    rw [hm1] at h
    rw [hf a s1 b st' h, hm st a s1 hm1]

theorem SimF_const {α : Type} (m : DecM α) (hm : PosInv m) : SimF (fun _ => m) := by
  intro stream st a st' h
  refine ⟨le_of_eq (hm st a st' h).symm, fun k _ => h, fun k hk1 hk2 => ?_⟩
  rw [hm st a st' h] at hk2
  omega

theorem SimF_bind {α β : Type} {F : List Nat → DecM α} {G : α → List Nat → DecM β}
    (hF : SimF F) (hG : ∀ a, SimF (G a)) :
    SimF (fun stream => F stream >>= fun a => G a stream) := by
  intro stream st b st'' h
  simp only [DecM_bind_apply] at h
  cases hF1 : F stream st with
  | err e s1 => rw [hF1] at h; exact absurd h (by simp)
  | ok a s1 =>
    rw [hF1] at h
    obtain ⟨hm1, hok1, herr1⟩ := hF stream st a s1 hF1
    obtain ⟨hm2, hok2, herr2⟩ := hG a stream s1 b st'' h
    refine ⟨le_trans hm1 hm2, ?_, ?_⟩
    · intro k hk
      simp only [DecM_bind_apply, hok1 k (le_trans hm2 hk), hok2 k hk]
    · intro k hk1 hk2
      by_cases hks : k < s1.pos
      · obtain ⟨ste, he⟩ := herr1 k hk1 hks
        exact ⟨ste, by simp only [DecM_bind_apply, he]⟩
      · obtain ⟨ste, he⟩ := herr2 k (le_of_not_lt hks) hk2
        exact ⟨ste, by simp only [DecM_bind_apply, hok1 k (le_of_not_lt hks), he]⟩

theorem getD_take_eq (stream : List Nat) (i k : Nat) (h1 : i < k) :
    (stream.take k).getD i 0 = stream.getD i 0 := by
  simp [List.getD_eq_getElem?_getD, List.getElem?_take, h1]

theorem length_take_ge (stream : List Nat) (k n : Nat) (h1 : n ≤ k)
    (h2 : n ≤ stream.length) : n ≤ (stream.take k).length := by
  simp [List.length_take]
  omega

theorem segment_take_eq (stream : List Nat) (p n k : Nat) (h : p + n ≤ k) :
    ((stream.take k).drop p).take n = (stream.drop p).take n := by
  rw [List.drop_take]
  rw [List.take_take]
  congr 1
  omega

theorem simF_mReadByte : SimF (fun stream => mReadByte stream) := by
  intro stream st a st' h
  simp only [mReadByte] at h
  by_cases hb : st.pos + 1 > stream.length
  · rw [if_pos hb] at h
    exact absurd h (by simp)
  · rw [if_neg hb] at h
    cases h
    refine ⟨by simp, ?_, ?_⟩
    · intro k hk
      replace hk : st.pos + 1 ≤ k := by simpa using hk
      simp only [mReadByte]
      rw [if_neg (by simp [List.length_take]; omega)]
      rw [getD_take_eq stream st.pos k (by omega)]
    · intro k hk1 hk2
      replace hk2 : k < st.pos + 1 := by simpa using hk2
      refine ⟨st, ?_⟩
      simp only [mReadByte]
      rw [if_pos (by simp [List.length_take]; omega)]

theorem simF_mReadUInt16 : SimF (fun stream => mReadUInt16 stream) := by
  intro stream st a st' h
  simp only [mReadUInt16] at h
  by_cases hb : st.pos + 2 > stream.length
  · rw [if_pos hb] at h
    exact absurd h (by simp)
  · rw [if_neg hb] at h
    cases h
    refine ⟨by simp, ?_, ?_⟩
    · intro k hk
      replace hk : st.pos + 2 ≤ k := by simpa using hk
      simp only [mReadUInt16]
      rw [if_neg (by simp [List.length_take]; omega)]
      rw [getD_take_eq stream st.pos k (by omega),
        getD_take_eq stream (st.pos + 1) k (by omega)]
    · intro k hk1 hk2
      replace hk2 : k < st.pos + 2 := by simpa using hk2
      refine ⟨st, ?_⟩
      simp only [mReadUInt16]
      rw [if_pos (by simp [List.length_take]; omega)]

theorem simF_mReadUInt32 : SimF (fun stream => mReadUInt32 stream) := by
  intro stream st a st' h
  simp only [mReadUInt32] at h
  by_cases hb : st.pos + 4 > stream.length
  · rw [if_pos hb] at h
    exact absurd h (by simp)
  · rw [if_neg hb] at h
    cases h
    refine ⟨by simp, ?_, ?_⟩
    · intro k hk
      replace hk : st.pos + 4 ≤ k := by simpa using hk
      simp only [mReadUInt32]
      rw [if_neg (by simp [List.length_take]; omega)]
      rw [getD_take_eq stream st.pos k (by omega),
        getD_take_eq stream (st.pos + 1) k (by omega),
        getD_take_eq stream (st.pos + 2) k (by omega),
        getD_take_eq stream (st.pos + 3) k (by omega)]
    · intro k hk1 hk2
      replace hk2 : k < st.pos + 4 := by simpa using hk2
      refine ⟨st, ?_⟩
      simp only [mReadUInt32]
      rw [if_pos (by simp [List.length_take]; omega)]

theorem simF_mReadDouble : SimF (fun stream => mReadDouble stream) := by
  intro stream st a st' h
  simp only [mReadDouble] at h
  by_cases hb : st.pos + 8 > stream.length
  · rw [if_pos hb] at h
    exact absurd h (by simp)
  · rw [if_neg hb] at h
    cases h
    refine ⟨by simp, ?_, ?_⟩
    · intro k hk
      replace hk : st.pos + 8 ≤ k := by simpa using hk
      simp only [mReadDouble]
      rw [if_neg (by simp [List.length_take]; omega)]
      rw [segment_take_eq stream st.pos 8 k (by omega)]
    · intro k hk1 hk2
      replace hk2 : k < st.pos + 8 := by simpa using hk2
      refine ⟨st, ?_⟩
      simp only [mReadDouble]
      rw [if_pos (by simp [List.length_take]; omega)]

theorem simF_mReadString (len : Int) : SimF (fun stream => mReadString stream len) := by
  intro stream st a st' h
  simp only [mReadString] at h
  by_cases hb : (st.pos : Int) + len > (stream.length : Int)
  · rw [if_pos hb] at h
    exact absurd h (by simp)
  · rw [if_neg hb] at h
    by_cases hneg : len < 0
    · rw [if_pos hneg] at h
      exact absurd h (by simp)
    · rw [if_neg hneg] at h
      cases h
      refine ⟨by simp, ?_, ?_⟩
      · intro k hk
        replace hk : st.pos + len.toNat ≤ k := by simpa using hk
        simp only [mReadString]
        rw [if_neg (by simp [List.length_take]; omega), if_neg hneg]
        rw [segment_take_eq stream st.pos len.toNat k (by omega)]
      · intro k hk1 hk2
        replace hk2 : k < st.pos + len.toNat := by simpa using hk2
        refine ⟨st, ?_⟩
        simp only [mReadString]
        rw [if_pos (by simp [List.length_take]; omega)]

theorem simF_mReadSym (len : Nat) : SimF (fun stream => mReadSym stream len) := by
  intro stream st a st' h
  simp only [mReadSym] at h
  by_cases hb : st.pos + len > stream.length
  · rw [if_pos hb] at h
    exact absurd h (by simp)
  · rw [if_neg hb] at h
    cases h
    refine ⟨by simp, ?_, ?_⟩
    · intro k hk
      replace hk : st.pos + len ≤ k := by simpa using hk
      simp only [mReadSym]
      rw [if_neg (by simp [List.length_take]; omega)]
      rw [segment_take_eq stream st.pos len k (by omega)]
    · intro k hk1 hk2
      replace hk2 : k < st.pos + len := by simpa using hk2
      refine ⟨st, ?_⟩
      simp only [mReadSym]
      rw [if_pos (by simp [List.length_take]; omega)]

theorem getElem?_some_lt {l : List Nat} {i b : Nat} (h : l[i]? = some b) :
    i < l.length := by
  by_contra hc
  rw [List.getElem?_eq_none (by omega)] at h
  cases h

/-- Truncation behaviour of the `des_read_int` while-loop: a successful run
is reproduced by any truncation keeping the final position, and any
truncation below it makes the loop fail its bounds check. -/
theorem des_read_int_loop_take (stream : List Nat) :
    ∀ (rem result byteCnt byte pos : Nat) (res : Nat × Nat × Nat × Nat),
    des_read_int_loop stream rem result byteCnt byte pos = some res →
    pos ≤ res.2.2.2 ∧
    (∀ k, res.2.2.2 ≤ k →
      des_read_int_loop (stream.take k) rem result byteCnt byte pos = some res) ∧
    (∀ k, pos ≤ k → k < res.2.2.2 →
      des_read_int_loop (stream.take k) rem result byteCnt byte pos = none) := by
  intro rem
  induction rem with
  | zero =>
    intro result byteCnt byte pos res h
    rw [des_read_int_loop] at h
    cases h
    exact ⟨le_refl _, fun k _ => rfl, fun k hk1 hk2 => absurd hk2 (by simp; omega)⟩
  | succ rem ih =>
    intro result byteCnt byte pos res h
    rw [des_read_int_loop] at h
    by_cases hbb : byte &&& 0x80 ≠ 0
    · rw [if_pos hbb] at h
      cases hget : stream[pos]? with
      | none => rw [hget] at h; cases h
      | some b =>
        rw [hget] at h
        have hlt : pos < stream.length := getElem?_some_lt hget
        obtain ⟨hm, hok, herr⟩ := ih ((result <<< 7) ||| (byte &&& 0x7f)) (byteCnt + 1)
          b (pos + 1) res h
        refine ⟨by omega, ?_, ?_⟩
        · intro k hk
          rw [des_read_int_loop, if_pos hbb,
            List.getElem?_take_of_lt (by omega : pos < k), hget]
          exact hok k hk
        · intro k hk1 hk2
          by_cases hkp : k ≤ pos
          · rw [des_read_int_loop, if_pos hbb,
              List.getElem?_eq_none (by simp [List.length_take]; omega)]
          · rw [des_read_int_loop, if_pos hbb,
              List.getElem?_take_of_lt (by omega : pos < k), hget]
            exact herr k (by omega) hk2
    · rw [if_neg hbb] at h
      cases h
      exact ⟨le_refl _, fun k hk => by rw [des_read_int_loop, if_neg hbb],
        fun k hk1 hk2 => absurd hk2 (by simp; omega)⟩

/-- Truncation behaviour of `des_read_int`. -/
theorem des_read_int_take (stream : List Nat) (pos : Nat) (v : Int) (p1 : Nat)
    (h : des_read_int stream pos = some (v, p1)) :
    pos < p1 ∧
    (∀ k, p1 ≤ k → des_read_int (stream.take k) pos = some (v, p1)) ∧
    (∀ k, pos ≤ k → k < p1 → des_read_int (stream.take k) pos = none) := by
  rw [des_read_int] at h
  cases hget : stream[pos]? with
  | none =>
    simp only [hget] at h
    cases h
  | some b0 =>
    simp only [hget] at h
    have hlt : pos < stream.length := getElem?_some_lt hget
    cases hloop : des_read_int_loop stream 3 0 0 b0 (pos + 1) with
    | none =>
      simp only [hloop] at h
      cases h
    | some res =>
      obtain ⟨r, bc, byt, p1'⟩ := res
      simp only [hloop] at h
      obtain ⟨hm, hok, herr⟩ := des_read_int_loop_take stream 3 0 0 b0 (pos + 1)
        (r, bc, byt, p1') hloop
      simp only at hm hok herr
      cases h
      refine ⟨by omega, ?_, ?_⟩
      · intro k hk
        simp only [des_read_int, List.getElem?_take_of_lt (by omega : pos < k), hget,
          hok k hk]
      · intro k hk1 hk2
        by_cases hkp : k ≤ pos
        · simp only [des_read_int,
            List.getElem?_eq_none (by simp [List.length_take]; omega : (stream.take k).length ≤ pos)]
        · simp only [des_read_int, List.getElem?_take_of_lt (by omega : pos < k), hget,
            herr k (by omega) hk2]

theorem simF_mReadInt : SimF (fun stream => mReadInt stream) := by
  intro stream st a st' h
  simp only [mReadInt] at h
  cases hri : des_read_int stream st.pos with
  | none => rw [hri] at h; cases h
  | some vp =>
    obtain ⟨v, p1⟩ := vp
    obtain ⟨hm, hok, herr⟩ := des_read_int_take stream st.pos v p1 hri
    rw [hri] at h
    cases h
    refine ⟨by simp; omega, ?_, ?_⟩
    · intro k hk
      replace hk : p1 ≤ k := by simpa using hk
      simp only [mReadInt, hok k hk]
    · intro k hk1 hk2
      replace hk2 : k < p1 := by simpa using hk2
      refine ⟨st, ?_⟩
      simp only [mReadInt, herr k hk1 hk2]

theorem PosInv_allocObj (o : RObj) : PosInv (allocObj o) := by
  intro st a st' h
  cases h
  rfl

theorem PosInv_getObj (r : Nat) : PosInv (getObj r) := by
  intro st a st' h
  simp only [getObj] at h
  cases hh : st.heap[r]? with
  | none =>
    simp only [hh] at h
    cases h
  | some o =>
    simp only [hh] at h
    cases h
    rfl

theorem PosInv_setObj (r : Nat) (o : RObj) : PosInv (setObj r o) := by
  intro st a st' h
  cases h
  rfl

theorem PosInv_modifyD (f : DState → DState) (hf : ∀ s, (f s).pos = s.pos) :
    PosInv (modifyD f) := by
  intro st a st' h
  cases h
  exact hf st

theorem PosInv_pushObjCache (r : Nat) : PosInv (pushObjCache r) :=
  PosInv_modifyD _ (fun _ => rfl)

theorem PosInv_pushStrCache (r : Nat) : PosInv (pushStrCache r) :=
  PosInv_modifyD _ (fun _ => rfl)

theorem PosInv_pushTraitCache (t : Traits) : PosInv (pushTraitCache t) :=
  PosInv_modifyD _ (fun _ => rfl)

theorem PosInv_cacheNth {α : Type} (cache : List α) (i : Int) :
    PosInv (cacheNth cache i) := by
  intro st a st' h
  simp only [cacheNth] at h
  split at h
  · cases h
    rfl
  · cases h

theorem PosInv_ite {α : Type} {c : Prop} [Decidable c] {m1 m2 : DecM α}
    (h1 : PosInv m1) (h2 : PosInv m2) : PosInv (if c then m1 else m2) := by
  by_cases hc : c
  · rwa [if_pos hc]
  · rwa [if_neg hc]

theorem PosInv_strLen (r : Nat) : PosInv (strLen r) := by
  apply PosInv_bind (PosInv_getObj r)
  intro o
  cases o <;> first | exact PosInv_pure _ | exact PosInv_throwD _

theorem PosInv_strBytes (r : Nat) : PosInv (strBytes r) := by
  apply PosInv_bind (PosInv_getObj r)
  intro o
  cases o <;> first | exact PosInv_pure _ | exact PosInv_throwD _

theorem PosInv_arrayPush (r v : Nat) : PosInv (arrayPush r v) := by
  apply PosInv_bind (PosInv_getObj r)
  intro o
  cases o <;> first | exact PosInv_setObj _ _ | exact PosInv_throwD _

theorem PosInv_hashAset (r k v : Nat) : PosInv (hashAset r k v) := by
  intro st a st' h
  simp only [hashAset] at h
  cases hh : st.heap[r]? with
  | none =>
    simp only [hh] at h
    cases h
  | some o =>
    cases o <;> simp only [hh] at h <;> cases h
    rfl

theorem SimF_ite {α : Type} {c : Prop} [Decidable c] {F1 F2 : List Nat → DecM α}
    (h1 : SimF F1) (h2 : SimF F2) :
    SimF (fun stream => if c then F1 stream else F2 stream) := by
  by_cases hc : c
  · simpa [hc] using h1
  · simpa [hc] using h2

/-- The shared reference-or-inline header shape: the even branch consults a
cache and never touches the stream. -/
theorem PosInv_refBranch {α : Type} (cache : List α) (i : Int) :
    PosInv (if i ≥ (cache.length : Int) then throwD .badRef else cacheNth cache i) :=
  PosInv_ite (PosInv_throwD _) (PosInv_cacheNth _ _)

theorem simF_des3_read_string : SimF (fun stream => des3_read_string stream) := by
  unfold des3_read_string
  apply SimF_bind simF_mReadInt
  intro header
  apply SimF_ite
  · apply SimF_const
    exact PosInv_bind PosInv_getD (fun st => PosInv_refBranch _ _)
  · apply SimF_bind (simF_mReadString _)
    intro str
    apply SimF_const
    apply PosInv_bind (PosInv_allocObj _)
    intro r
    apply PosInv_ite
    · exact PosInv_bind (PosInv_pushStrCache _) (fun _ => PosInv_pure _)
    · exact PosInv_bind (PosInv_pure _) (fun _ => PosInv_pure _)

theorem simF_des3_read_xml : SimF (fun stream => des3_read_xml stream) := by
  unfold des3_read_xml
  apply SimF_bind simF_mReadInt
  intro header
  apply SimF_ite
  · apply SimF_const
    exact PosInv_bind PosInv_getD (fun st => PosInv_refBranch _ _)
  · apply SimF_bind (simF_mReadString _)
    intro str
    apply SimF_const
    apply PosInv_bind (PosInv_allocObj _)
    intro r
    apply PosInv_ite
    · exact PosInv_bind (PosInv_pushObjCache _) (fun _ => PosInv_pure _)
    · exact PosInv_bind (PosInv_pure _) (fun _ => PosInv_pure _)

theorem simF_des3_read_time : SimF (fun stream => des3_read_time stream) := by
  unfold des3_read_time
  apply SimF_bind simF_mReadInt
  intro header
  apply SimF_ite
  · apply SimF_const
    exact PosInv_bind PosInv_getD (fun st => PosInv_refBranch _ _)
  · apply SimF_bind simF_mReadDouble
    intro milli
    apply SimF_const
    apply PosInv_bind (PosInv_allocObj _)
    intro time
    apply PosInv_bind (PosInv_pushObjCache _)
    intro _
    exact PosInv_pure _

theorem simF_des3_read_byte_array : SimF (fun stream => des3_read_byte_array stream) := by
  unfold des3_read_byte_array
  apply SimF_bind simF_mReadInt
  intro header
  apply SimF_ite
  · apply SimF_const
    exact PosInv_bind PosInv_getD (fun st => PosInv_refBranch _ _)
  · apply SimF_bind (simF_mReadString _)
    intro bytes
    apply SimF_const
    apply PosInv_bind (PosInv_allocObj _)
    intro ba
    apply PosInv_bind (PosInv_pushObjCache _)
    intro _
    exact PosInv_pure _

theorem simF_des3_read_members (n : Nat) :
    SimF (fun stream => des3_read_members stream n) := by
  induction n with
  | zero =>
    simp only [des3_read_members]
    exact SimF_const _ (PosInv_pure _)
  | succ n ih =>
    simp only [des3_read_members]
    apply SimF_bind simF_des3_read_string
    intro m
    apply SimF_bind ih
    intro rest
    exact SimF_const _ (PosInv_pure _)

theorem simF_des3_parse_traits (header : Int) :
    SimF (fun stream => des3_parse_traits stream header) := by
  unfold des3_parse_traits
  apply SimF_ite
  · apply SimF_const
    exact PosInv_bind PosInv_getD (fun st => PosInv_refBranch _ _)
  · apply SimF_bind simF_des3_read_string
    intro className
    apply SimF_bind (simF_des3_read_members _)
    intro members
    apply SimF_const
    apply PosInv_bind (PosInv_pushTraitCache _)
    intro _
    exact PosInv_pure _

theorem PosInv_throw_bind {α β : Type} (e : DErr) (f : α → DecM β) :
    PosInv (throwD e >>= f) := by
  intro st a st' h
  simp [DecM_bind_apply, throwD] at h

theorem PosInv_populate (obj props : Nat) (dynProps : Option Nat) :
    PosInv (des3_read_object.populate_typed obj props dynProps) := by
  unfold des3_read_object.populate_typed
  refine PosInv_bind (PosInv_getObj props) ?_
  intro o
  cases o <;> try exact PosInv_throw_bind _ _
  case rhash ps =>
    refine PosInv_bind (PosInv_pure _) ?_
    intro propPairs
    have hfinal : ∀ dynPairs : Option (List (Nat × Nat)),
        PosInv ((getObj obj) >>= fun l =>
          match l with
          | .rtyped name _ _ => setObj obj (.rtyped name propPairs dynPairs)
          | _ => throwD .typeErr) := by
      intro dynPairs
      refine PosInv_bind (PosInv_getObj obj) ?_
      intro o3
      cases o3 <;> first | exact PosInv_setObj _ _ | exact PosInv_throwD _
    cases dynProps with
    | none =>
      refine PosInv_bind (PosInv_pure _) ?_
      intro dynPairs
      exact hfinal dynPairs
    | some d =>
      refine PosInv_bind (PosInv_getObj d) ?_
      intro o2
      cases o2 <;> try exact PosInv_throw_bind _ _
      case rhash ps2 =>
        refine PosInv_bind (PosInv_pure _) ?_
        intro dynPairs
        exact hfinal dynPairs

theorem simF_des3_dyn_loop (tc : Bool) (des3 : List Nat → DecM Nat)
    (hdes3 : SimF des3) :
    ∀ fuel dynProps,
      SimF (fun stream => des3_dyn_loop stream tc (des3 stream) fuel dynProps) := by
  intro fuel
  induction fuel with
  | zero =>
    intro dynProps
    simp only [des3_dyn_loop]
    exact SimF_const _ (PosInv_throwD _)
  | succ fuel ih =>
    intro dynProps
    simp only [des3_dyn_loop]
    apply SimF_bind simF_des3_read_string
    intro keyStr
    apply SimF_bind (SimF_const _ (PosInv_strBytes _))
    intro kb
    apply SimF_ite
    · exact SimF_const _ (PosInv_pure _)
    · apply SimF_bind (SimF_const _ (PosInv_allocObj _))
      intro key
      apply SimF_bind hdes3
      intro v
      apply SimF_bind (SimF_const _ (PosInv_hashAset _ _ _))
      intro _
      exact ih dynProps

theorem simF_des3_members_loop (tc : Bool) (des3 : List Nat → DecM Nat)
    (hdes3 : SimF des3) (props : Nat) :
    ∀ mrefs, SimF (fun stream => des3_members_loop tc (des3 stream) props mrefs) := by
  intro mrefs
  induction mrefs with
  | nil =>
    simp only [des3_members_loop]
    exact SimF_const _ (PosInv_pure _)
  | cons mref rest ih =>
    simp only [des3_members_loop]
    apply SimF_bind (SimF_const _ (PosInv_strBytes _))
    intro mb
    apply SimF_bind (SimF_const _ (PosInv_allocObj _))
    intro key
    apply SimF_bind hdes3
    intro v
    apply SimF_bind (SimF_const _ (PosInv_hashAset _ _ _))
    intro _
    exact ih

theorem simF_des3_read_object (tc : Bool) (des3 : List Nat → DecM Nat)
    (hdes3 : SimF des3) (fuel : Nat) :
    SimF (fun stream => des3_read_object stream tc (des3 stream) fuel) := by
  unfold des3_read_object
  apply SimF_bind simF_mReadInt
  intro header
  apply SimF_ite
  · apply SimF_const
    exact PosInv_bind PosInv_getD (fun st => PosInv_refBranch _ _)
  · apply SimF_bind (simF_des3_parse_traits _)
    intro traits
    apply SimF_bind (SimF_const _ (PosInv_strBytes _))
    intro nameBytes
    apply SimF_ite
    · apply SimF_bind hdes3
      intro arr
      apply SimF_const
      exact PosInv_bind (PosInv_pushObjCache _) (fun _ => PosInv_pure _)
    · apply SimF_bind (SimF_const _ (PosInv_allocObj _))
      intro obj
      apply SimF_bind (SimF_const _ (PosInv_pushObjCache _))
      intro _
      apply SimF_ite
      · exact SimF_const _ (PosInv_throwD _)
      · apply SimF_bind (SimF_const _ (PosInv_allocObj _))
        intro props
        apply SimF_bind (simF_des3_members_loop tc des3 hdes3 props _)
        intro _
        apply SimF_ite
        · apply SimF_bind (SimF_const _ (PosInv_allocObj _))
          intro d
          apply SimF_bind (simF_des3_dyn_loop tc des3 hdes3 fuel d)
          intro _
          apply SimF_const
          refine PosInv_bind (PosInv_pure _) ?_
          intro dynProps
          exact PosInv_bind (PosInv_populate _ _ _) (fun _ => PosInv_pure _)
        · apply SimF_const
          refine PosInv_bind (PosInv_pure _) ?_
          intro dynProps
          exact PosInv_bind (PosInv_populate _ _ _) (fun _ => PosInv_pure _)

theorem simF_des3_assoc_loop (des3 : List Nat → DecM Nat) (hdes3 : SimF des3) :
    ∀ fuel obj key,
      SimF (fun stream => des3_assoc_loop stream (des3 stream) fuel obj key) := by
  intro fuel
  induction fuel with
  | zero =>
    intro obj key
    simp only [des3_assoc_loop]
    exact SimF_const _ (PosInv_throwD _)
  | succ fuel ih =>
    intro obj key
    simp only [des3_assoc_loop]
    apply SimF_bind hdes3
    intro v
    apply SimF_bind (SimF_const _ (PosInv_hashAset _ _ _))
    intro _
    apply SimF_bind simF_des3_read_string
    intro key2
    apply SimF_bind (SimF_const _ (PosInv_strLen _))
    intro kl
    apply SimF_ite
    · exact ih obj key2
    · exact SimF_const _ (PosInv_pure _)

theorem simF_des3_hash_dense_loop (des3 : List Nat → DecM Nat) (hdes3 : SimF des3)
    (obj : Nat) :
    ∀ n i, SimF (fun stream => des3_hash_dense_loop (des3 stream) obj i n) := by
  intro n
  induction n with
  | zero =>
    intro i
    simp only [des3_hash_dense_loop]
    exact SimF_const _ (PosInv_pure _)
  | succ n ih =>
    intro i
    simp only [des3_hash_dense_loop]
    apply SimF_bind (SimF_const _ (PosInv_allocObj _))
    intro k
    apply SimF_bind hdes3
    intro v
    apply SimF_bind (SimF_const _ (PosInv_hashAset _ _ _))
    intro _
    exact ih (i + 1)

theorem simF_des3_dense_loop (des3 : List Nat → DecM Nat) (hdes3 : SimF des3)
    (obj : Nat) :
    ∀ n, SimF (fun stream => des3_dense_loop (des3 stream) obj n) := by
  intro n
  induction n with
  | zero =>
    simp only [des3_dense_loop]
    exact SimF_const _ (PosInv_pure _)
  | succ n ih =>
    simp only [des3_dense_loop]
    apply SimF_bind hdes3
    intro v
    apply SimF_bind (SimF_const _ (PosInv_arrayPush _ _))
    intro _
    exact ih

theorem simF_des3_read_array (des3 : List Nat → DecM Nat) (hdes3 : SimF des3)
    (fuel : Nat) :
    SimF (fun stream => des3_read_array stream (des3 stream) fuel) := by
  unfold des3_read_array
  apply SimF_bind simF_mReadInt
  intro header
  apply SimF_ite
  · apply SimF_const
    exact PosInv_bind PosInv_getD (fun st => PosInv_refBranch _ _)
  · apply SimF_bind simF_des3_read_string
    intro key
    apply SimF_bind (SimF_const _ (PosInv_strLen _))
    intro kl
    apply SimF_ite
    · apply SimF_bind (SimF_const _ (PosInv_allocObj _))
      intro obj
      apply SimF_bind (SimF_const _ (PosInv_pushObjCache _))
      intro _
      apply SimF_bind (simF_des3_assoc_loop des3 hdes3 fuel obj key)
      intro _
      apply SimF_bind (simF_des3_hash_dense_loop des3 hdes3 obj _ 0)
      intro _
      exact SimF_const _ (PosInv_pure _)
    · apply SimF_bind (SimF_const _ (PosInv_allocObj _))
      intro obj
      apply SimF_bind (SimF_const _ (PosInv_pushObjCache _))
      intro _
      apply SimF_bind (simF_des3_dense_loop des3 hdes3 obj _)
      intro _
      exact SimF_const _ (PosInv_pure _)

theorem simF_des3_dict_loop (des3 : List Nat → DecM Nat) (hdes3 : SimF des3)
    (dict : Nat) :
    ∀ n, SimF (fun stream => des3_dict_loop (des3 stream) dict n) := by
  intro n
  induction n with
  | zero =>
    simp only [des3_dict_loop]
    exact SimF_const _ (PosInv_pure _)
  | succ n ih =>
    simp only [des3_dict_loop]
    apply SimF_bind hdes3
    intro k
    apply SimF_bind hdes3
    intro v
    apply SimF_bind (SimF_const _ (PosInv_hashAset _ _ _))
    intro _
    exact ih

theorem simF_des3_read_dict (des3 : List Nat → DecM Nat) (hdes3 : SimF des3) :
    SimF (fun stream => des3_read_dict stream (des3 stream)) := by
  unfold des3_read_dict
  apply SimF_bind simF_mReadInt
  intro header
  apply SimF_ite
  · apply SimF_const
    exact PosInv_bind PosInv_getD (fun st => PosInv_refBranch _ _)
  · apply SimF_bind (SimF_const _ (PosInv_allocObj _))
    intro dict
    apply SimF_bind (SimF_const _ (PosInv_pushObjCache _))
    intro _
    apply SimF_bind simF_mReadInt
    intro _
    apply SimF_bind (simF_des3_dict_loop des3 hdes3 dict _)
    intro _
    exact SimF_const _ (PosInv_pure _)

theorem simF_des3_deserialize (tc : Bool) :
    ∀ fuel, SimF (fun stream => des3_deserialize stream tc fuel) := by
  intro fuel
  induction fuel with
  | zero =>
    simp only [des3_deserialize]
    exact SimF_const _ (PosInv_throwD _)
  | succ fuel ih =>
    simp only [des3_deserialize]
    apply SimF_bind simF_mReadByte
    intro type
    apply SimF_ite
    · exact SimF_const _ (PosInv_allocObj _)
    · apply SimF_ite
      · exact SimF_const _ (PosInv_allocObj _)
      · apply SimF_ite
        · exact SimF_const _ (PosInv_allocObj _)
        · apply SimF_ite
          · exact SimF_bind simF_mReadInt
              (fun v => SimF_const _ (PosInv_allocObj _))
          · apply SimF_ite
            · exact SimF_bind simF_mReadDouble
                (fun d => SimF_const _ (PosInv_allocObj _))
            · apply SimF_ite
              · exact simF_des3_read_string
              · apply SimF_ite
                · exact simF_des3_read_array _ ih fuel
                · apply SimF_ite
                  · exact simF_des3_read_object tc _ ih fuel
                  · apply SimF_ite
                    · exact simF_des3_read_time
                    · apply SimF_ite
                      · exact simF_des3_read_xml
                      · apply SimF_ite
                        · exact simF_des3_read_byte_array
                        · apply SimF_ite
                          · exact simF_des3_read_dict _ ih
                          · exact SimF_const _ (PosInv_throwD _)

theorem simF_des0_key_sym (tc : Bool) (len : Nat) :
    SimF (fun stream => des0_key_sym stream tc len) := by
  unfold des0_key_sym
  apply SimF_bind (simF_mReadSym len)
  intro b
  apply SimF_ite
  · exact SimF_const _ (PosInv_allocObj _)
  · exact SimF_const _ (PosInv_allocObj _)

theorem simF_des0_key_str (tc : Bool) (len : Nat) :
    SimF (fun stream => des0_key_str stream tc len) := by
  unfold des0_key_str
  apply SimF_bind (simF_mReadString _)
  intro b
  apply SimF_ite
  · exact SimF_const _ (PosInv_allocObj _)
  · exact SimF_const _ (PosInv_allocObj _)

theorem simF_des0_read_props (readKey : List Nat → Nat → DecM Nat)
    (hk : ∀ len, SimF (fun stream => readKey stream len))
    (des0 : List Nat → Nat → DecM Nat)
    (hdes0 : ∀ type, SimF (fun stream => des0 stream type)) :
    ∀ fuel hash,
      SimF (fun stream =>
        des0_read_props stream (readKey stream) (des0 stream) fuel hash) := by
  intro fuel
  induction fuel with
  | zero =>
    intro hash
    simp only [des0_read_props]
    exact SimF_const _ (PosInv_throwD _)
  | succ fuel ih =>
    intro hash
    simp only [des0_read_props]
    apply SimF_bind simF_mReadUInt16
    intro len
    apply SimF_ite
    · apply SimF_bind simF_mReadByte
      intro _
      exact SimF_const _ (PosInv_pure _)
    · apply SimF_bind (hk len)
      intro key
      apply SimF_bind simF_mReadByte
      intro type
      apply SimF_bind (hdes0 type)
      intro v
      apply SimF_bind (SimF_const _ (PosInv_hashAset _ _ _))
      intro _
      exact ih hash

theorem simF_des0_read_object (des0 : List Nat → Nat → DecM Nat)
    (hdes0 : ∀ type, SimF (fun stream => des0 stream type)) (fuel : Nat) :
    SimF (fun stream => des0_read_object stream (des0 stream) fuel) := by
  unfold des0_read_object
  apply SimF_bind (SimF_const _ (PosInv_allocObj _))
  intro obj
  apply SimF_bind (SimF_const _ (PosInv_pushObjCache _))
  intro _
  apply SimF_bind (simF_des0_read_props _ (fun len => simF_des0_key_sym false len)
    des0 hdes0 fuel obj)
  intro _
  exact SimF_const _ (PosInv_pure _)

theorem simF_des0_read_typed_object (tc : Bool) (des0 : List Nat → Nat → DecM Nat)
    (hdes0 : ∀ type, SimF (fun stream => des0 stream type)) (fuel : Nat) :
    SimF (fun stream => des0_read_typed_object stream tc (des0 stream) fuel) := by
  unfold des0_read_typed_object
  apply SimF_bind simF_mReadUInt16
  intro len
  apply SimF_bind (simF_mReadString _)
  intro className
  apply SimF_bind (SimF_const _ (PosInv_allocObj _))
  intro obj
  apply SimF_bind (SimF_const _ (PosInv_pushObjCache _))
  intro _
  apply SimF_bind (SimF_const _ (PosInv_allocObj _))
  intro props
  apply SimF_bind (simF_des0_read_props _ (fun l => simF_des0_key_sym tc l)
    des0 hdes0 fuel props)
  intro _
  apply SimF_const
  refine PosInv_bind (PosInv_getObj props) ?_
  intro o
  cases o <;> try exact PosInv_throw_bind _ _
  case rhash ps =>
    refine PosInv_bind (PosInv_pure _) ?_
    intro propPairs
    exact PosInv_bind (PosInv_setObj _ _) (fun _ => PosInv_pure _)

theorem simF_des0_read_hash (des0 : List Nat → Nat → DecM Nat)
    (hdes0 : ∀ type, SimF (fun stream => des0 stream type)) (fuel : Nat) :
    SimF (fun stream => des0_read_hash stream (des0 stream) fuel) := by
  unfold des0_read_hash
  apply SimF_bind simF_mReadUInt32
  intro _
  apply SimF_bind (SimF_const _ (PosInv_allocObj _))
  intro obj
  apply SimF_bind (SimF_const _ (PosInv_pushObjCache _))
  intro _
  apply SimF_bind (simF_des0_read_props _ (fun len => simF_des0_key_str false len)
    des0 hdes0 fuel obj)
  intro _
  exact SimF_const _ (PosInv_pure _)

theorem simF_des0_array_loop (des0 : List Nat → Nat → DecM Nat)
    (hdes0 : ∀ type, SimF (fun stream => des0 stream type)) (ary : Nat) :
    ∀ n, SimF (fun stream => des0_array_loop stream (des0 stream) ary n) := by
  intro n
  induction n with
  | zero =>
    simp only [des0_array_loop]
    exact SimF_const _ (PosInv_pure _)
  | succ n ih =>
    simp only [des0_array_loop]
    apply SimF_bind simF_mReadByte
    intro type
    apply SimF_bind (hdes0 type)
    intro v
    apply SimF_bind (SimF_const _ (PosInv_arrayPush _ _))
    intro _
    exact ih

theorem simF_des0_read_array (des0 : List Nat → Nat → DecM Nat)
    (hdes0 : ∀ type, SimF (fun stream => des0 stream type)) :
    SimF (fun stream => des0_read_array stream (des0 stream)) := by
  unfold des0_read_array
  apply SimF_bind simF_mReadUInt32
  intro len
  apply SimF_bind (SimF_const _ (PosInv_allocObj _))
  intro ary
  apply SimF_bind (SimF_const _ (PosInv_pushObjCache _))
  intro _
  apply SimF_bind (simF_des0_array_loop des0 hdes0 ary _)
  intro _
  exact SimF_const _ (PosInv_pure _)

theorem simF_des0_read_time : SimF (fun stream => des0_read_time stream) := by
  unfold des0_read_time
  apply SimF_bind simF_mReadDouble
  intro milli
  apply SimF_bind simF_mReadUInt16
  intro _
  exact SimF_const _ (PosInv_allocObj _)

theorem simF_des0_read_amf3 (tc : Bool) (fuel : Nat) :
    SimF (fun stream => des0_read_amf3 stream tc fuel) := by
  intro stream st a st' h
  simp only [des0_read_amf3] at h
  cases h3 : des3_deserialize stream tc fuel (initState st.pos st.heap st.symTouched) with
  | err e s3 =>
    simp only [h3] at h
    cases h
  | ok r s3 =>
    obtain ⟨hm, hok, herr⟩ := simF_des3_deserialize tc fuel stream
      (initState st.pos st.heap st.symTouched) r s3 h3
    simp only [h3] at h
    cases h
    refine ⟨?_, ?_, ?_⟩
    · simpa [initState] using hm
    · intro k hk
      replace hk : s3.pos ≤ k := by simpa using hk
      simp only [des0_read_amf3, hok k hk]
    · intro k hk1 hk2
      replace hk2 : k < s3.pos := by simpa using hk2
      obtain ⟨ste, he⟩ := herr k (by simpa [initState] using hk1) hk2
      exact ⟨{ st with pos := ste.pos, heap := ste.heap, symTouched := ste.symTouched },
        by simp only [des0_read_amf3, he]⟩

theorem simF_des0_deserialize (tc : Bool) :
    ∀ fuel type, SimF (fun stream => des0_deserialize stream tc fuel type) := by
  intro fuel
  induction fuel with
  | zero =>
    intro type
    simp only [des0_deserialize]
    exact SimF_const _ (PosInv_throwD _)
  | succ fuel ih =>
    intro type
    simp only [des0_deserialize]
    apply SimF_ite
    · apply SimF_bind simF_mReadUInt16
      intro len
      apply SimF_bind (simF_mReadString _)
      intro b
      exact SimF_const _ (PosInv_allocObj _)
    · apply SimF_ite
      · exact simF_des0_read_amf3 tc fuel
      · apply SimF_ite
        · exact SimF_bind simF_mReadDouble (fun d => SimF_const _ (PosInv_allocObj _))
        · apply SimF_ite
          · exact SimF_bind simF_mReadByte (fun b => SimF_const _ (PosInv_allocObj _))
          · apply SimF_ite
            · exact SimF_const _ (PosInv_allocObj _)
            · apply SimF_ite
              · exact simF_des0_read_object _ ih fuel
              · apply SimF_ite
                · exact simF_des0_read_typed_object tc _ ih fuel
                · apply SimF_ite
                  · exact simF_des0_read_hash _ ih fuel
                  · apply SimF_ite
                    · exact simF_des0_read_array _ ih
                    · apply SimF_ite
                      · apply SimF_bind simF_mReadUInt16
                        intro tmp
                        apply SimF_const
                        exact PosInv_bind PosInv_getD
                          (fun st => PosInv_refBranch _ _)
                      · apply SimF_ite
                        · exact simF_des0_read_time
                        · apply SimF_ite
                          · apply SimF_bind simF_mReadUInt32
                            intro len
                            apply SimF_bind (simF_mReadString _)
                            intro b
                            exact SimF_const _ (PosInv_allocObj _)
                          · exact SimF_const _ (PosInv_throwD _)

/-- C2 (amended): bounds behaviour of the decoder.  Truncation is detected:
if a decode (AMF0 or AMF3) succeeds having consumed the stream up to its
final position, then re-running it on any strictly shorter prefix of the
consumed bytes fails with the bounds-check error UnexpectedEnd.  The access
discipline, however, is not exactly "pos plus the requested length":
`des_read_sym` checks `pos + len <= size` and then also touches the byte at
index `pos + len` itself — one past the requested range, and one past the
buffer when `pos + len` equals the buffer size. -/
theorem C2_truncation_unexpected_end :
    (∀ (tc : Bool) (fuel : Nat) (stream : List Nat) (r : Nat) (st' : DState),
        deserialize0 tc fuel stream = .ok r st' →
        ∀ k, k < st'.pos →
          ∃ ste, deserialize0 tc fuel (stream.take k) = .err .unexpectedEnd ste) ∧
    (∀ (tc : Bool) (fuel : Nat) (stream : List Nat) (r : Nat) (st' : DState),
        deserialize3 tc fuel stream = .ok r st' →
        ∀ k, k < st'.pos →
          ∃ ste, deserialize3 tc fuel (stream.take k) = .err .unexpectedEnd ste) ∧
    (∀ (stream : List Nat) (len : Nat) (s : DState) (b : List Nat) (s' : DState),
        mReadSym stream len s = .ok b s' →
        s.pos + len ≤ stream.length ∧ (s.pos + len) ∈ s'.symTouched) := by
  refine ⟨?_, ?_, ?_⟩
  · intro tc fuel stream r st' h k hk
    have hsim : SimF (fun stream => mReadByte stream >>= fun type =>
        des0_deserialize stream tc fuel type) :=
      SimF_bind simF_mReadByte (fun type => simF_des0_deserialize tc fuel type)
    obtain ⟨hm, hok, herr⟩ := hsim stream (initState 0 [] []) r st' h
    exact herr k (by simp [initState]) hk
  · intro tc fuel stream r st' h k hk
    obtain ⟨hm, hok, herr⟩ := simF_des3_deserialize tc fuel stream
      (initState 0 [] []) r st' h
    exact herr k (by simp [initState]) hk
  · intro stream len s b s' h
    simp only [mReadSym] at h
    by_cases hb : s.pos + len > stream.length
    · rw [if_pos hb] at h
      cases h
    · rw [if_neg hb] at h
      cases h
      refine ⟨by omega, ?_⟩
      simp only [List.mem_append]
      right
      simp only [List.mem_map]
      exact ⟨len, List.mem_range.mpr (by omega), rfl⟩

/-- Witness for C2 (amended) at concrete inputs: the AMF0 null stream `05`
and the AMF3 null stream `01` decode fully, and their empty truncations
fail with UnexpectedEnd; a one-byte symbol read from a one-byte buffer
touches index 1, the buffer size. -/
theorem C2_truncation_unexpected_end_witness :
    (∃ ste, deserialize0 false 1 (([0x05] : List Nat).take 0) =
      .err .unexpectedEnd ste) ∧
    (∃ ste, deserialize3 false 1 (([0x01] : List Nat).take 0) =
      .err .unexpectedEnd ste) ∧
    ((0 : Nat) + 1 ≤ ([97] : List Nat).length ∧
      (0 : Nat) + 1 ∈ (⟨1, [], [], [], [], [0, 1]⟩ : DState).symTouched) :=
  ⟨C2_truncation_unexpected_end.1 false 1 [0x05] 0 ⟨1, [.rnil], [], [], [], []⟩
      (by decide) 0 (by decide),
   C2_truncation_unexpected_end.2.1 false 1 [0x01] 0 ⟨1, [.rnil], [], [], [], []⟩
      (by decide) 0 (by decide),
   C2_truncation_unexpected_end.2.2 [97] 1 (initState 0 [] []) [97]
      ⟨1, [], [], [], [], [0, 1]⟩ (by decide)⟩

end RocketAMF
